import Mathlib

/-!
Shallow embedding of the Obviate kanban data-access layer
(`app/repositories/base.py`, `card.py`, `column.py`, `board.py`, and the
model fields of `app/models/base.py`), together with theorems checking
the specification's claims about dense position ordering, optimistic
concurrency, and cascading deletes.

The relational store is modelled as plain Lean lists of rows, one list
per table; timestamps are abstract `Nat` instants passed in as `now`
(`datetime.now(timezone.utc)` in the source); string ids, tenant ids and
text payloads are modelled as `Nat` tokens.  Each repository method
becomes a pure function from table states to table states paired with
the method's return value.
-/

namespace Obviate

/-- Common columns of every entity (`app/models/base.py`, class
`BaseModel`): `id` primary key, `tenant_id`, optimistic-concurrency
`version` (default 1), `created_at`, `updated_at` (whose `onupdate`
default refreshes it on every UPDATE statement that does not set it
explicitly), and the soft-delete marker `deleted_at` (`none` = alive). -/
structure BaseModel where
  id : Nat
  tenant_id : Nat
  version : Nat
  created_at : Nat
  updated_at : Nat
  deleted_at : Option Nat
deriving DecidableEq, Repr

/-- Model of `app/models/card.py`: a card row.  The payload text columns (title,
description, …) are represented by the single `title` token. -/
structure Card extends BaseModel where
  board_id : Nat
  column_id : Nat
  position : Int
  title : Nat
deriving DecidableEq, Repr

/-- Model of `app/models/column.py`: a column row (payload text as `name`). -/
structure Column extends BaseModel where
  board_id : Nat
  position : Int
  name : Nat
deriving DecidableEq, Repr

/-- Model of `app/models/board.py`: a board row (payload text as `name`). -/
structure Board extends BaseModel where
  workspace_id : Nat
  name : Nat
deriving DecidableEq, Repr

/-- Model of `app/models/comment.py`: a comment row attached to a card. -/
structure Comment extends BaseModel where
  card_id : Nat
  body : Nat
deriving DecidableEq, Repr

/-- Model of `app/models/attachment.py`: an attachment row attached to a card. -/
structure Attachment extends BaseModel where
  card_id : Nat
  filename : Nat
deriving DecidableEq, Repr

/-- The `data` dict passed to `BaseRepository.update` for cards: the keys
the repositories in scope actually write (`position`, `column_id`) plus
the generic payload key `title`; a `none` field is an absent dict key. -/
structure CardUpdate where
  position : Option Int := none
  column_id : Option Nat := none
  title : Option Nat := none
deriving DecidableEq, Repr

/-- Applying the SET clause of the `data` dict to a card row. -/
def Card.applyData (c : Card) (d : CardUpdate) : Card :=
  { c with
    position := d.position.getD c.position,
    column_id := d.column_id.getD c.column_id,
    title := d.title.getD c.title }

/-- The WHERE clause of `BaseRepository.update` (base.py 203-212):
match on id, tenant, and — when an expected `version` is supplied —
on the stored version. -/
def Card.matchesUpdate (c : Card) (entity_id tenant_id : Nat)
    (version : Option Nat) : Bool :=
  c.id == entity_id && c.tenant_id == tenant_id &&
    (match version with
     | none => true
     | some v => c.version == v)

/-- Embedding of `BaseRepository.get_by_id` (base.py 65-93) at `T = Card`: the first
row matching id and tenant, hiding soft-deleted rows unless
`include_deleted` (unique under the primary-key invariant, so
`scalar_one_or_none` is the first match). -/
def CardRepository.get_by_id (cards : List Card) (entity_id tenant_id : Nat)
    (include_deleted : Bool := false) : Option Card :=
  cards.find? (fun c =>
    c.id == entity_id && c.tenant_id == tenant_id &&
      (include_deleted || c.deleted_at == none))

/-- Embedding of `BaseRepository.update` (base.py 180-226) at `T = Card`
(`CardRepository` inherits it).  Writes the `data` fields on every
matching row, plus `version + 1` when an expected version was supplied
(base.py 213) and always a fresh `updated_at` (base.py 216).  Returns
the new table and the method's return value: `none` when `rowcount` is
zero, otherwise the row re-read through `get_by_id` (which hides
soft-deleted rows). -/
def CardRepository.update (cards : List Card) (entity_id tenant_id : Nat)
    (data : CardUpdate) (version : Option Nat) (now : Nat) :
    List Card × Option Card :=
  let cards' := cards.map (fun c =>
    if c.matchesUpdate entity_id tenant_id version then
      let c1 := c.applyData data
      let c2 := match version with
        | none => c1
        | some v => { c1 with version := v + 1 }
      { c2 with updated_at := now }
    else c)
  if (cards.filter (fun c => c.matchesUpdate entity_id tenant_id version)).length = 0 then
    (cards', none)
  else
    (cards', CardRepository.get_by_id cards' entity_id tenant_id)

/-- The orderable card columns (`hasattr(self.model, order_by)`,
base.py 167), each mapped to its integer ordering key. -/
inductive CardOrderField
  | id | tenant_id | version | created_at | updated_at
  | board_id | column_id | position | title
deriving DecidableEq, Repr

/-- Ordering key of a card column. -/
def Card.orderKey : CardOrderField → Card → Int
  | .id, c => c.id
  | .tenant_id, c => c.tenant_id
  | .version, c => c.version
  | .created_at, c => c.created_at
  | .updated_at, c => c.updated_at
  | .board_id, c => c.board_id
  | .column_id, c => c.column_id
  | .position, c => c.position
  | .title, c => c.title

/-- Embedding of `order_field.desc()` (base.py 169): `a` may come before `b` exactly
when `a`'s key is at least `b`'s key — descending order, the only
direction the engine can produce. -/
def cardDescRel (f : CardOrderField) (a b : Card) : Prop :=
  Card.orderKey f b ≤ Card.orderKey f a

instance (f : CardOrderField) : DecidableRel (cardDescRel f) :=
  fun a b => Int.decLe _ _

/-- The conjunctive equality filters used by the card queries in scope
(base.py 156-163): `column_id` and `board_id`. -/
structure CardFilters where
  column_id : Option Nat := none
  board_id : Option Nat := none
deriving DecidableEq, Repr

/-- Filter clause of `BaseRepository.list` for cards. -/
def Card.matchesFilters (c : Card) (f : CardFilters) : Bool :=
  (match f.column_id with | none => true | some v => c.column_id == v) &&
  (match f.board_id with | none => true | some v => c.board_id == v)

/-- Embedding of `BaseRepository.list` (base.py 128-178) at `T = Card`: filter by
tenant, soft-delete visibility and the equality filters; sort by the
requested column descending (base.py 169), defaulting to `created_at`
descending (base.py 172); then apply `OFFSET` and `LIMIT`. -/
def CardRepository.list (cards : List Card) (tenant_id : Nat)
    (limit : Nat := 100) (offset : Nat := 0) (include_deleted : Bool := false)
    (order_by : Option CardOrderField := none) (filters : CardFilters := {}) :
    List Card :=
  let q := cards.filter (fun c =>
    c.tenant_id == tenant_id && (include_deleted || c.deleted_at == none)
      && c.matchesFilters filters)
  let sorted := match order_by with
    | some f => q.insertionSort (cardDescRel f)
    | none => q.insertionSort (cardDescRel .created_at)
  (sorted.drop offset).take limit

/-- Embedding of `CardRepository.list_by_column` (card.py 178-206): `list` with the
`column_id` filter, ordered by `position`. -/
def CardRepository.list_by_column (cards : List Card) (column_id tenant_id : Nat)
    (limit : Nat := 100) (offset : Nat := 0) (include_deleted : Bool := false) :
    List Card :=
  CardRepository.list cards tenant_id limit offset include_deleted
    (some .position) { column_id := some column_id }

/-- Embedding of `CardRepository.list_by_board` (card.py 142-176): `list` with the
`board_id` filter, ordered by `position`. -/
def CardRepository.list_by_board (cards : List Card) (board_id tenant_id : Nat)
    (limit : Nat := 100) (offset : Nat := 0) (include_deleted : Bool := false) :
    List Card :=
  CardRepository.list cards tenant_id limit offset include_deleted
    (some .position) { board_id := some board_id }

/-- Embedding of `CardRepository.batch_update_positions` (card.py 274-301): one
`BaseRepository.update` call per `(card_id, new_position)` pair — each
iteration issues and commits its own single-row UPDATE (base.py
219-220).  In this fault-free model every iteration succeeds and the
method returns `True`. -/
def CardRepository.batch_update_positions (cards : List Card)
    (_column_id tenant_id : Nat) (card_positions : List (Nat × Int))
    (now : Nat) : List Card × Bool :=
  (card_positions.foldl
    (fun acc p =>
      (CardRepository.update acc p.1 tenant_id { position := some p.2 } none now).1)
    cards, true)

/-- Embedding of `batch_update_positions` when the storage layer raises inside the
`k`-th (0-based) `self.update` call: each earlier iteration has already
committed its own UPDATE (base.py 220), the failing statement itself has
no effect, `session.rollback()` (card.py 300) can only discard
uncommitted work, and the method returns `False`. -/
def CardRepository.batch_update_positions_failing_at (cards : List Card)
    (_column_id tenant_id : Nat) (card_positions : List (Nat × Int))
    (now : Nat) (k : Nat) : List Card × Bool :=
  ((card_positions.take k).foldl
    (fun acc p =>
      (CardRepository.update acc p.1 tenant_id { position := some p.2 } none now).1)
    cards, false)

/-- Embedding of `CardRepository.reorder_card` (card.py 303-392): fetch the column's
live cards (descending by position, capped at 1000), find the card,
clamp the target to `[0, len-1]`, no-op when the position is unchanged,
otherwise compute the insert-and-shift position map and batch-write it. -/
def CardRepository.reorder_card (cards : List Card) (card_id column_id : Nat)
    (new_position : Int) (tenant_id : Nat) (now : Nat) : List Card × Bool :=
  let cs := CardRepository.list_by_column cards column_id tenant_id 1000 0 false
  if cs.isEmpty then (cards, false) else
  match cs.find? (fun c => c.id == card_id) with
  | none => (cards, false)
  | some target_card =>
    let old_position := target_card.position
    let max_position : Int := (cs.length : Int) - 1
    let new_position := max 0 (min new_position max_position)
    if old_position = new_position then (cards, true)
    else
      let new_positions :=
        if old_position < new_position then
          cs.map (fun c =>
            if c.id = card_id then (c.id, new_position)
            else if old_position < c.position ∧ c.position ≤ new_position then
              (c.id, c.position - 1)
            else (c.id, c.position))
        else
          cs.map (fun c =>
            if c.id = card_id then (c.id, new_position)
            else if new_position ≤ c.position ∧ c.position < old_position then
              (c.id, c.position + 1)
            else (c.id, c.position))
      CardRepository.batch_update_positions cards column_id tenant_id new_positions now

/-- Embedding of `CardRepository.move_card` (card.py 394-478): same-column moves
degrade to `reorder_card`; cross-column moves fetch the target column's
live cards (descending by position), clamp or default the target index
against their count, assign positions by `enumerate` index, append the
moved card at the target index, batch-write the target column, then
update the card's `column_id`. -/
def CardRepository.move_card (cards : List Card) (card_id target_column_id : Nat)
    (target_position : Option Int) (tenant_id : Nat) (now : Nat) :
    List Card × Bool :=
  match CardRepository.get_by_id cards card_id tenant_id with
  | none => (cards, false)
  | some card =>
    let old_column_id := card.column_id
    if old_column_id = target_column_id then
      match target_position with
      | some tp => CardRepository.reorder_card cards card_id target_column_id tp tenant_id now
      | none => (cards, true)
    else
      let target_cards :=
        CardRepository.list_by_column cards target_column_id tenant_id 1000 0 false
      let tpos : Int :=
        match target_position with
        | none => (target_cards.length : Int)
        | some tp => max 0 (min tp (target_cards.length : Int))
      let target_positions :=
        (target_cards.enum.map (fun p =>
          if (p.1 : Int) ≥ tpos then (p.2.id, (p.1 : Int) + 1)
          else (p.2.id, (p.1 : Int))))
        ++ [(card_id, tpos)]
      let r := CardRepository.batch_update_positions cards target_column_id tenant_id
        target_positions now
      if r.2 = false then (r.1, false)
      else
        let r2 := CardRepository.update r.1 card_id tenant_id
          { column_id := some target_column_id } none now
        (r2.1, true)

/-- The card, comment and attachment tables touched by
`CardRepository.delete`. -/
structure CardTables where
  cards : List Card
  comments : List Comment
  attachments : List Attachment
deriving DecidableEq, Repr

/-- Embedding of `CardRepository.delete` (card.py 24-140): verify the card exists
(live) and, when supplied, that the expected version matches; then
cascade to the card's comments and attachments before deleting the card
itself inside one transaction.  Hard delete removes the rows physically;
soft delete stamps `deleted_at` and bumps each live dependent's version
by 1 (the card's own version is bumped only when an expected version was
supplied, card.py 125-127); `updated_at` is refreshed by the model's
`onupdate` default on every row an UPDATE touches. -/
def CardRepository.delete (t : CardTables) (entity_id tenant_id : Nat)
    (version : Option Nat) (hard_delete : Bool) (now : Nat) :
    CardTables × Bool :=
  match CardRepository.get_by_id t.cards entity_id tenant_id with
  | none => (t, false)
  | some card =>
    if version.any (fun v => card.version != v) then (t, false)
    else if hard_delete then
      let comments' := t.comments.filter (fun cm =>
        !(cm.card_id == entity_id && cm.tenant_id == tenant_id))
      let attachments' := t.attachments.filter (fun a =>
        !(a.card_id == entity_id && a.tenant_id == tenant_id))
      let cards' := t.cards.filter (fun c =>
        !(c.matchesUpdate entity_id tenant_id version))
      ({ cards := cards', comments := comments', attachments := attachments' },
        decide (0 < (t.cards.filter (fun c =>
          c.matchesUpdate entity_id tenant_id version)).length))
    else
      let comments' := t.comments.map (fun cm =>
        if cm.card_id = entity_id ∧ cm.tenant_id = tenant_id ∧ cm.deleted_at = none then
          { cm with deleted_at := some now, version := cm.version + 1, updated_at := now }
        else cm)
      let attachments' := t.attachments.map (fun a =>
        if a.card_id = entity_id ∧ a.tenant_id = tenant_id ∧ a.deleted_at = none then
          { a with deleted_at := some now, version := a.version + 1, updated_at := now }
        else a)
      let cards' := t.cards.map (fun c =>
        if c.matchesUpdate entity_id tenant_id version then
          let c1 := match version with
            | none => c
            | some v => { c with version := v + 1 }
          { c1 with deleted_at := some now, updated_at := now }
        else c)
      ({ cards := cards', comments := comments', attachments := attachments' },
        decide (0 < (t.cards.filter (fun c =>
          c.matchesUpdate entity_id tenant_id version)).length))

/-- Embedding of `BaseRepository.delete` (base.py 228-282) at `T = Card`: the generic,
cascade-free engine (`CardRepository` overrides it, but repositories
without an override — workspaces, comments, attachments — run exactly
this code).  Soft delete stamps `deleted_at` on every matching row and
bumps `version` only when an expected version was supplied (base.py
267-269); hard delete removes the rows. -/
def BaseRepository.delete (cards : List Card) (entity_id tenant_id : Nat)
    (version : Option Nat) (hard_delete : Bool) (now : Nat) :
    List Card × Bool :=
  if hard_delete then
    (cards.filter (fun c => !(c.matchesUpdate entity_id tenant_id version)),
      decide (0 < (cards.filter (fun c =>
        c.matchesUpdate entity_id tenant_id version)).length))
  else
    (cards.map (fun c =>
      if c.matchesUpdate entity_id tenant_id version then
        let c1 := match version with
          | none => c
          | some v => { c with version := v + 1 }
        { c1 with deleted_at := some now, updated_at := now }
      else c),
      decide (0 < (cards.filter (fun c =>
        c.matchesUpdate entity_id tenant_id version)).length))

/-- Embedding of `BaseRepository.create` (base.py 32-63) at `T = Card`: insert a row
with the caller's tenant and the model defaults `version = 1`,
`created_at = updated_at = now`, `deleted_at = null`
(models/base.py 55-91). -/
def CardRepository.create (cards : List Card) (id tenant_id board_id column_id : Nat)
    (position : Int) (title : Nat) (now : Nat) : List Card × Card :=
  let entity : Card :=
    { id := id, tenant_id := tenant_id, version := 1, created_at := now,
      updated_at := now, deleted_at := none, board_id := board_id,
      column_id := column_id, position := position, title := title }
  (cards ++ [entity], entity)

/-- The `data` dict passed to `BaseRepository.update` for columns. -/
structure ColumnUpdate where
  position : Option Int := none
  name : Option Nat := none
deriving DecidableEq, Repr

/-- Applying the SET clause of the `data` dict to a column row. -/
def Column.applyData (c : Column) (d : ColumnUpdate) : Column :=
  { c with
    position := d.position.getD c.position,
    name := d.name.getD c.name }

/-- The WHERE clause of `BaseRepository.update` for columns. -/
def Column.matchesUpdate (c : Column) (entity_id tenant_id : Nat)
    (version : Option Nat) : Bool :=
  c.id == entity_id && c.tenant_id == tenant_id &&
    (match version with
     | none => true
     | some v => c.version == v)

/-- Embedding of `BaseRepository.get_by_id` at `T = Column`. -/
def ColumnRepository.get_by_id (columns : List Column) (entity_id tenant_id : Nat)
    (include_deleted : Bool := false) : Option Column :=
  columns.find? (fun c =>
    c.id == entity_id && c.tenant_id == tenant_id &&
      (include_deleted || c.deleted_at == none))

/-- Embedding of `BaseRepository.update` (base.py 180-226) at `T = Column`. -/
def ColumnRepository.update (columns : List Column) (entity_id tenant_id : Nat)
    (data : ColumnUpdate) (version : Option Nat) (now : Nat) :
    List Column × Option Column :=
  let columns' := columns.map (fun c =>
    if c.matchesUpdate entity_id tenant_id version then
      let c1 := c.applyData data
      let c2 := match version with
        | none => c1
        | some v => { c1 with version := v + 1 }
      { c2 with updated_at := now }
    else c)
  if (columns.filter (fun c => c.matchesUpdate entity_id tenant_id version)).length = 0 then
    (columns', none)
  else
    (columns', ColumnRepository.get_by_id columns' entity_id tenant_id)

/-- The orderable column columns, mapped to integer ordering keys. -/
inductive ColumnOrderField
  | id | tenant_id | version | created_at | updated_at
  | board_id | position | name
deriving DecidableEq, Repr

/-- Ordering key of a column column. -/
def Column.orderKey : ColumnOrderField → Column → Int
  | .id, c => c.id
  | .tenant_id, c => c.tenant_id
  | .version, c => c.version
  | .created_at, c => c.created_at
  | .updated_at, c => c.updated_at
  | .board_id, c => c.board_id
  | .position, c => c.position
  | .name, c => c.name

/-- Embedding of `order_field.desc()` for columns. -/
def columnDescRel (f : ColumnOrderField) (a b : Column) : Prop :=
  Column.orderKey f b ≤ Column.orderKey f a

instance (f : ColumnOrderField) : DecidableRel (columnDescRel f) :=
  fun x y => Int.decLe _ _

/-- Embedding of `BaseRepository.list` (base.py 128-178) at `T = Column` with the one
equality filter the column queries in scope use (`board_id`, passed as
`some b`). -/
def ColumnRepository.list (columns : List Column) (tenant_id : Nat)
    (limit : Nat := 100) (offset : Nat := 0) (include_deleted : Bool := false)
    (order_by : Option ColumnOrderField := none)
    (board_id_filter : Option Nat := none) : List Column :=
  let q := columns.filter (fun c =>
    c.tenant_id == tenant_id && (include_deleted || c.deleted_at == none)
      && (match board_id_filter with | none => true | some v => c.board_id == v))
  let sorted := match order_by with
    | some f => q.insertionSort (columnDescRel f)
    | none => q.insertionSort (columnDescRel .created_at)
  (sorted.drop offset).take limit

/-- Embedding of `ColumnRepository.list_by_board` (column.py 23-51): `list` with the
`board_id` filter, ordered by `position`. -/
def ColumnRepository.list_by_board (columns : List Column) (board_id tenant_id : Nat)
    (limit : Nat := 100) (offset : Nat := 0) (include_deleted : Bool := false) :
    List Column :=
  ColumnRepository.list columns tenant_id limit offset include_deleted
    (some .position) (some board_id)

/-- Embedding of `ColumnRepository.batch_update_positions` (column.py 117-144): one
committed single-row UPDATE per pair, as for cards. -/
def ColumnRepository.batch_update_positions (columns : List Column)
    (_board_id tenant_id : Nat) (column_positions : List (Nat × Int))
    (now : Nat) : List Column × Bool :=
  (column_positions.foldl
    (fun acc p =>
      (ColumnRepository.update acc p.1 tenant_id { position := some p.2 } none now).1)
    columns, true)

/-- Embedding of `ColumnRepository.reorder_column` (column.py 146-235): identical
insert-and-shift logic to `reorder_card`, over a board's columns. -/
def ColumnRepository.reorder_column (columns : List Column) (column_id board_id : Nat)
    (new_position : Int) (tenant_id : Nat) (now : Nat) : List Column × Bool :=
  let cs := ColumnRepository.list_by_board columns board_id tenant_id 1000 0 false
  if cs.isEmpty then (columns, false) else
  match cs.find? (fun c => c.id == column_id) with
  | none => (columns, false)
  | some target_column =>
    let old_position := target_column.position
    let max_position : Int := (cs.length : Int) - 1
    let new_position := max 0 (min new_position max_position)
    if old_position = new_position then (columns, true)
    else
      let new_positions :=
        if old_position < new_position then
          cs.map (fun c =>
            if c.id = column_id then (c.id, new_position)
            else if old_position < c.position ∧ c.position ≤ new_position then
              (c.id, c.position - 1)
            else (c.id, c.position))
        else
          cs.map (fun c =>
            if c.id = column_id then (c.id, new_position)
            else if new_position ≤ c.position ∧ c.position < old_position then
              (c.id, c.position + 1)
            else (c.id, c.position))
      ColumnRepository.batch_update_positions columns board_id tenant_id new_positions now

/-- The column and card tables touched by `ColumnRepository.delete`. -/
structure ColumnTables where
  columns : List Column
  cards : List Card
deriving DecidableEq, Repr

/-- Embedding of `ColumnRepository.delete` (column.py 262-356): verify the column
exists (live) and the expected version when supplied; then cascade to
every card whose `column_id` references it — with no `deleted_at`
filter on the hard path, so already-soft-deleted cards are removed too —
before deleting the column itself, all in one transaction. -/
def ColumnRepository.delete (t : ColumnTables) (entity_id tenant_id : Nat)
    (version : Option Nat) (hard_delete : Bool) (now : Nat) :
    ColumnTables × Bool :=
  match ColumnRepository.get_by_id t.columns entity_id tenant_id with
  | none => (t, false)
  | some column =>
    if version.any (fun v => column.version != v) then (t, false)
    else if hard_delete then
      let cards' := t.cards.filter (fun c =>
        !(c.column_id == entity_id && c.tenant_id == tenant_id))
      let columns' := t.columns.filter (fun c =>
        !(c.matchesUpdate entity_id tenant_id version))
      ({ columns := columns', cards := cards' },
        decide (0 < (t.columns.filter (fun c =>
          c.matchesUpdate entity_id tenant_id version)).length))
    else
      let cards' := t.cards.map (fun c =>
        if c.column_id = entity_id ∧ c.tenant_id = tenant_id ∧ c.deleted_at = none then
          { c with deleted_at := some now, version := c.version + 1, updated_at := now }
        else c)
      let columns' := t.columns.map (fun c =>
        if c.matchesUpdate entity_id tenant_id version then
          let c1 := match version with
            | none => c
            | some v => { c with version := v + 1 }
          { c1 with deleted_at := some now, updated_at := now }
        else c)
      ({ columns := columns', cards := cards' },
        decide (0 < (t.columns.filter (fun c =>
          c.matchesUpdate entity_id tenant_id version)).length))

/-- The WHERE clause of the board-row write in `BoardRepository.delete`. -/
def Board.matchesUpdate (b : Board) (entity_id tenant_id : Nat)
    (version : Option Nat) : Bool :=
  b.id == entity_id && b.tenant_id == tenant_id &&
    (match version with
     | none => true
     | some v => b.version == v)

/-- Embedding of `BaseRepository.get_by_id` at `T = Board`. -/
def BoardRepository.get_by_id (boards : List Board) (entity_id tenant_id : Nat)
    (include_deleted : Bool := false) : Option Board :=
  boards.find? (fun b =>
    b.id == entity_id && b.tenant_id == tenant_id &&
      (include_deleted || b.deleted_at == none))

/-- The board, column and card tables touched by
`BoardRepository.delete`. -/
structure BoardTables where
  boards : List Board
  columns : List Column
  cards : List Card
deriving DecidableEq, Repr

/-- Embedding of `BoardRepository.delete` (board.py 196-312): verify the board exists
(live) and the expected version when supplied; then cascade Cards →
Columns → Board in one transaction.  The soft path stamps `deleted_at`
and bumps `version` by 1 on every live card and column of the board; the
board row itself is version-checked and version-bumped only when an
expected version was supplied (board.py 297-299). -/
def BoardRepository.delete (t : BoardTables) (entity_id tenant_id : Nat)
    (version : Option Nat) (hard_delete : Bool) (now : Nat) :
    BoardTables × Bool :=
  match BoardRepository.get_by_id t.boards entity_id tenant_id with
  | none => (t, false)
  | some board =>
    if version.any (fun v => board.version != v) then (t, false)
    else if hard_delete then
      let cards' := t.cards.filter (fun c =>
        !(c.board_id == entity_id && c.tenant_id == tenant_id))
      let columns' := t.columns.filter (fun c =>
        !(c.board_id == entity_id && c.tenant_id == tenant_id))
      let boards' := t.boards.filter (fun b =>
        !(b.matchesUpdate entity_id tenant_id version))
      ({ boards := boards', columns := columns', cards := cards' },
        decide (0 < (t.boards.filter (fun b =>
          b.matchesUpdate entity_id tenant_id version)).length))
    else
      let cards' := t.cards.map (fun c =>
        if c.board_id = entity_id ∧ c.tenant_id = tenant_id ∧ c.deleted_at = none then
          { c with deleted_at := some now, version := c.version + 1, updated_at := now }
        else c)
      let columns' := t.columns.map (fun c =>
        if c.board_id = entity_id ∧ c.tenant_id = tenant_id ∧ c.deleted_at = none then
          { c with deleted_at := some now, version := c.version + 1, updated_at := now }
        else c)
      let boards' := t.boards.map (fun b =>
        if b.matchesUpdate entity_id tenant_id version then
          let b1 := match version with
            | none => b
            | some v => { b with version := v + 1 }
          { b1 with deleted_at := some now, updated_at := now }
        else b)
      ({ boards := boards', columns := columns', cards := cards' },
        decide (0 < (t.boards.filter (fun b =>
          b.matchesUpdate entity_id tenant_id version)).length))

/-! ### Generic list facts -/

/-- A `find?` over a list with at most one matching element returns that
element whenever it is present. -/
theorem find?_eq_some_of_unique {α : Type} {p : α → Bool} {l : List α} {a : α}
    (hmem : a ∈ l) (hp : p a = true)
    (huniq : ∀ b ∈ l, p b = true → b = a) :
    l.find? p = some a := by
  induction l with
  | nil => cases hmem
  | cons x xs ih =>
    by_cases hx : p x = true
    · rw [List.find?_cons_of_pos _ hx]
      exact congrArg some (huniq x (List.mem_cons_self x xs) hx)
    · rw [List.find?_cons_of_neg _ (by simpa using hx)]
      rcases List.mem_cons.mp hmem with h | h
      · subst h; exact absurd hp hx
      · exact ih h (fun b hb hpb => huniq b (List.mem_cons_of_mem _ hb) hpb)

/-- Two rows of a table whose mapped ids are `Nodup` and whose ids agree
are the same row. -/
theorem row_unique {α : Type} {f : α → Nat} {l : List α} {a b : α}
    (hn : (l.map f).Nodup) (ha : a ∈ l) (hb : b ∈ l) (h : f a = f b) :
    a = b :=
  List.inj_on_of_nodup_map hn ha hb h

/-! ### The cumulative effect of `batch_update_positions` -/

/-- Per-row effect of one `batch_update_positions` iteration
(`BaseRepository.update` with `data = {"position": p.2}` and no expected
version): the row matching id and tenant gets the new position and a
fresh `updated_at`; every other row is untouched. -/
def posWrite (tenant_id now : Nat) (p : Nat × Int) (c : Card) : Card :=
  if c.id = p.1 ∧ c.tenant_id = tenant_id then
    { c with position := p.2, updated_at := now }
  else c

theorem update_fst_eq (cards : List Card) (i t : Nat) (d : CardUpdate)
    (v : Option Nat) (now : Nat) :
    (CardRepository.update cards i t d v now).1
      = cards.map (fun c =>
          if c.matchesUpdate i t v then
            let c1 := c.applyData d
            let c2 := match v with
              | none => c1
              | some ver => { c1 with version := ver + 1 }
            { c2 with updated_at := now }
          else c) := by
  by_cases h : (cards.filter (fun c => c.matchesUpdate i t v)).length = 0 <;>
    simp only [CardRepository.update, h, if_true, if_false, ite_true, ite_false]

theorem update_position_eq_map (cards : List Card) (i t : Nat) (pos : Int)
    (now : Nat) :
    (CardRepository.update cards i t { position := some pos } none now).1
      = cards.map (posWrite t now (i, pos)) := by
  rw [update_fst_eq]
  refine List.map_congr_left fun c _ => ?_
  simp only [Card.matchesUpdate, Card.applyData, posWrite]
  by_cases h1 : c.id = i <;> by_cases h2 : c.tenant_id = t <;>
    simp [h1, h2]

/-- Cumulative per-row effect of a whole `batch_update_positions` pass:
the per-pair writes folded left to right. -/
def applyPairs (tenant_id now : Nat) (ps : List (Nat × Int)) (c : Card) : Card :=
  ps.foldl (fun acc p => posWrite tenant_id now p acc) c

theorem applyPairs_cons (t now : Nat) (p : Nat × Int) (ps : List (Nat × Int))
    (c : Card) :
    applyPairs t now (p :: ps) c = applyPairs t now ps (posWrite t now p c) :=
  rfl

theorem foldl_update_eq_map (cards : List Card) (t : Nat)
    (ps : List (Nat × Int)) (now : Nat) :
    ps.foldl
      (fun acc p =>
        (CardRepository.update acc p.1 t { position := some p.2 } none now).1)
      cards
      = cards.map (applyPairs t now ps) := by
  induction ps generalizing cards with
  | nil => exact (List.map_id cards).symm
  | cons p ps ih =>
    rw [List.foldl_cons, update_position_eq_map, ih, List.map_map]
    exact List.map_congr_left fun c _ => rfl

theorem batch_eq_map (cards : List Card) (col t : Nat) (ps : List (Nat × Int))
    (now : Nat) :
    (CardRepository.batch_update_positions cards col t ps now).1
      = cards.map (applyPairs t now ps) :=
  foldl_update_eq_map cards t ps now

theorem applyPairs_of_not_mem {t now : Nat} {ps : List (Nat × Int)} {c : Card}
    (h : c.id ∉ ps.map Prod.fst) : applyPairs t now ps c = c := by
  induction ps with
  | nil => rfl
  | cons p ps ih =>
    have h1 : c.id ≠ p.1 := fun he => h (by simp [he])
    have hw : posWrite t now p c = c := by
      unfold posWrite
      exact if_neg (fun hc => h1 hc.1)
    rw [applyPairs_cons, hw]
    exact ih (fun hm => h (by simp at hm ⊢; exact Or.inr hm))

theorem applyPairs_of_mem {t now : Nat} {ps : List (Nat × Int)} {c : Card}
    {v : Int} (hn : (ps.map Prod.fst).Nodup) (hmem : (c.id, v) ∈ ps)
    (ht : c.tenant_id = t) :
    applyPairs t now ps c = { c with position := v, updated_at := now } := by
  induction ps with
  | nil => cases hmem
  | cons p ps ih =>
    rw [List.map_cons] at hn
    have hn' := List.nodup_cons.mp hn
    rcases List.mem_cons.mp hmem with he | hm
    · rw [applyPairs_cons]
      have hw : posWrite t now p c = { c with position := v, updated_at := now } := by
        unfold posWrite
        rw [if_pos (by rw [← he]; exact ⟨rfl, ht⟩), ← he]
      rw [hw]
      refine applyPairs_of_not_mem ?_
      show ({ c with position := v, updated_at := now } : Card).id ∉ ps.map Prod.fst
      have hpc : p.1 = c.id := by rw [← he]
      exact hpc ▸ hn'.1
    · have hkey : c.id ∈ ps.map Prod.fst := List.mem_map.mpr ⟨(c.id, v), hm, rfl⟩
      have hne : c.id ≠ p.1 := fun he => hn'.1 (he ▸ hkey)
      have hw : posWrite t now p c = c := by
        unfold posWrite
        exact if_neg (fun hc => hne hc.1)
      rw [applyPairs_cons, hw]
      exact ih hn'.2 hm

/-! ### The sibling set fetched by `list_by_column` -/

/-- The live cards of a column: the spec's "sibling set". -/
def siblingCards (cards : List Card) (column_id tenant_id : Nat) : List Card :=
  cards.filter (fun c =>
    c.column_id == column_id && c.tenant_id == tenant_id && c.deleted_at == none)

theorem list_by_column_eq_sort (cards : List Card) (col t limit : Nat) :
    CardRepository.list_by_column cards col t limit 0 false
      = ((siblingCards cards col t).insertionSort (cardDescRel .position)).take limit := by
  unfold CardRepository.list_by_column CardRepository.list siblingCards
  have hb : ∀ (x y z : Bool), (y && (false || z) && (x && true)) = (x && y && z) := by
    decide
  rw [List.filter_congr (fun c _ => hb (c.column_id == col) (c.tenant_id == t)
    (c.deleted_at == none))]
  rfl

theorem list_by_column_perm (cards : List Card) (col t limit : Nat)
    (h : (siblingCards cards col t).length ≤ limit) :
    (CardRepository.list_by_column cards col t limit 0 false).Perm
      (siblingCards cards col t) := by
  rw [list_by_column_eq_sort, List.take_of_length_le]
  · exact List.perm_insertionSort _ _
  · rw [(List.perm_insertionSort (cardDescRel .position)
      (siblingCards cards col t)).length_eq]
    exact h

theorem sibling_ids_nodup (cards : List Card) (col t : Nat)
    (hn : (cards.map (fun c => c.id)).Nodup) :
    ((siblingCards cards col t).map (fun c => c.id)).Nodup :=
  ((List.filter_sublist cards).map (fun c => c.id)).nodup hn

theorem get_by_id_eq_some {cards : List Card} {i t : Nat} {row : Card}
    (hn : (cards.map (fun c => c.id)).Nodup)
    (hmem : row ∈ cards) (hid : row.id = i) (ht : row.tenant_id = t)
    (hlive : row.deleted_at = none) :
    CardRepository.get_by_id cards i t = some row := by
  unfold CardRepository.get_by_id
  refine find?_eq_some_of_unique hmem (by simp [hid, ht, hlive]) ?_
  intro b hb hpb
  simp only [Bool.and_eq_true, beq_iff_eq] at hpb
  exact row_unique hn hb hmem (by rw [hpb.1.1, hid])

theorem mem_siblingCards {cards : List Card} {col t : Nat} {c : Card} :
    c ∈ siblingCards cards col t
      ↔ c ∈ cards ∧ c.column_id = col ∧ c.tenant_id = t ∧ c.deleted_at = none := by
  simp [siblingCards, List.mem_filter, and_assoc]

theorem list_by_column_find {cards : List Card} {col t x : Nat} {target : Card}
    (hn : (cards.map (fun c => c.id)).Nodup)
    (hmem : target ∈ cards) (hid : target.id = x)
    (hcol : target.column_id = col) (ht : target.tenant_id = t)
    (hlive : target.deleted_at = none)
    (hsize : (siblingCards cards col t).length ≤ 1000) :
    (CardRepository.list_by_column cards col t 1000 0 false).find?
      (fun c => c.id == x) = some target := by
  have hperm := list_by_column_perm cards col t 1000 hsize
  have htsib : target ∈ siblingCards cards col t :=
    mem_siblingCards.mpr ⟨hmem, hcol, ht, hlive⟩
  refine find?_eq_some_of_unique (hperm.mem_iff.mpr htsib) (by simp [hid]) ?_
  intro b hb hpb
  have hbcards : b ∈ cards :=
    (mem_siblingCards.mp (hperm.mem_iff.mp hb)).1
  simp only [beq_iff_eq] at hpb
  exact row_unique hn hbcards hmem (by rw [hpb, hid])

theorem batch_eq (cards : List Card) (col t : Nat) (ps : List (Nat × Int))
    (now : Nat) :
    CardRepository.batch_update_positions cards col t ps now
      = (cards.map (applyPairs t now ps), true) := by
  unfold CardRepository.batch_update_positions
  rw [foldl_update_eq_map]

/-- Writing a position map of the shape `c ↦ (c.id, val c)` over a
permutation of the sibling set assigns `val c` to each sibling and leaves
every other row of the table untouched. -/
theorem applyPairs_map_spec (cards cs : List Card) (col t now : Nat)
    (f : Card → Nat × Int) (val : Card → Int)
    (hperm : cs.Perm (siblingCards cards col t))
    (hn : (cards.map (fun c => c.id)).Nodup)
    (hf : ∀ c, f c = (c.id, val c)) :
    cards.map (applyPairs t now (cs.map f))
      = cards.map (fun c =>
          if c.column_id = col ∧ c.tenant_id = t ∧ c.deleted_at = none then
            { c with position := val c, updated_at := now }
          else c) := by
  have hkeys : (cs.map f).map Prod.fst = cs.map (fun d => d.id) := by
    rw [List.map_map]
    exact List.map_congr_left fun d _ => by
      show (f d).1 = d.id
      rw [hf]
  have hkn : ((cs.map f).map Prod.fst).Nodup := by
    rw [hkeys]
    exact (hperm.map _).nodup_iff.mpr (sibling_ids_nodup cards col t hn)
  refine List.map_congr_left fun c hc => ?_
  by_cases hp : c.column_id = col ∧ c.tenant_id = t ∧ c.deleted_at = none
  · have hcs : c ∈ cs := hperm.mem_iff.mpr (mem_siblingCards.mpr ⟨hc, hp⟩)
    have hpair : (c.id, val c) ∈ cs.map f := by
      rw [← hf c]
      exact List.mem_map_of_mem f hcs
    rw [if_pos hp]
    exact applyPairs_of_mem hkn hpair hp.2.1
  · have hnk : c.id ∉ (cs.map f).map Prod.fst := by
      rw [hkeys]
      intro hmm
      obtain ⟨d, hd, hdid⟩ := List.mem_map.mp hmm
      obtain ⟨hdcards, hdpred⟩ := mem_siblingCards.mp (hperm.mem_iff.mp hd)
      have hdc : d = c := row_unique hn hdcards hc hdid
      exact hp (hdc ▸ hdpred)
    rw [if_neg hp]
    exact applyPairs_of_not_mem hnk

/-- The insert-and-shift specification of `reorder_card`: when the clamped
target differs from the current position, the moved card lands on the
clamped target, siblings strictly between shift by one towards the hole,
all other siblings keep their position (every sibling row is rewritten,
so `updated_at` is refreshed on all of them), rows outside the sibling
set are untouched, and the call reports success. -/
theorem reorder_card_spec (cards : List Card) (x col t : Nat) (req : Int)
    (now : Nat) (target : Card) (p q : Int)
    (hn : (cards.map (fun c => c.id)).Nodup)
    (hmem : target ∈ cards) (hid : target.id = x)
    (hcol : target.column_id = col) (ht : target.tenant_id = t)
    (hlive : target.deleted_at = none)
    (hsize : (siblingCards cards col t).length ≤ 1000)
    (hp : p = target.position)
    (hq : q = max 0 (min req (((siblingCards cards col t).length : Int) - 1)))
    (hpq : p ≠ q) :
    CardRepository.reorder_card cards x col req t now
      = (cards.map (fun c =>
          if c.column_id = col ∧ c.tenant_id = t ∧ c.deleted_at = none then
            if c.id = x then { c with position := q, updated_at := now }
            else if p < q ∧ p < c.position ∧ c.position ≤ q then
              { c with position := c.position - 1, updated_at := now }
            else if q < p ∧ q ≤ c.position ∧ c.position < p then
              { c with position := c.position + 1, updated_at := now }
            else { c with updated_at := now }
          else c), true) := by
  subst hp hq
  have hperm := list_by_column_perm cards col t 1000 hsize
  have htsib : target ∈ siblingCards cards col t :=
    mem_siblingCards.mpr ⟨hmem, hcol, ht, hlive⟩
  have htcs : target ∈ CardRepository.list_by_column cards col t 1000 0 false :=
    hperm.mem_iff.mpr htsib
  have hne : (CardRepository.list_by_column cards col t 1000 0 false).isEmpty = false :=
    List.isEmpty_eq_false.mpr (List.ne_nil_of_mem htcs)
  have hfind := list_by_column_find hn hmem hid hcol ht hlive hsize
  have hlen : (CardRepository.list_by_column cards col t 1000 0 false).length
      = (siblingCards cards col t).length := hperm.length_eq
  -- notation for the clamped target position
  set q := max 0 (min req (((siblingCards cards col t).length : Int) - 1)) with hqdef
  unfold CardRepository.reorder_card
  dsimp only
  rw [hne]
  simp only [Bool.false_eq_true, if_false, hfind]
  rw [hlen]
  rw [if_neg hpq]
  -- the computed position map and its cumulative effect
  rcases lt_or_gt_of_ne hpq with hlt | hgt
  · rw [if_pos hlt, batch_eq,
      applyPairs_map_spec cards _ col t now _
        (fun c => if c.id = x then q
          else if target.position < c.position ∧ c.position ≤ q then c.position - 1
          else c.position)
        hperm hn ?side]
    case side =>
      intro c
      dsimp only
      by_cases h1 : c.id = x
      · rw [if_pos h1, if_pos h1]
      · rw [if_neg h1, if_neg h1]
        by_cases h2 : target.position < c.position ∧ c.position ≤ q
        · rw [if_pos h2, if_pos h2]
        · rw [if_neg h2, if_neg h2]
    simp only [Prod.mk.injEq, and_true]
    refine List.map_congr_left fun c _ => ?_
    by_cases hpr : c.column_id = col ∧ c.tenant_id = t ∧ c.deleted_at = none
    · rw [if_pos hpr, if_pos hpr]
      by_cases hcx : c.id = x
      · rw [if_pos hcx, if_pos hcx]
      · rw [if_neg hcx, if_neg hcx]
        by_cases hsh : target.position < c.position ∧ c.position ≤ q
        · rw [if_pos hsh, if_pos ⟨hlt, hsh.1, hsh.2⟩]
        · rw [if_neg hsh, if_neg (fun h => hsh ⟨h.2.1, h.2.2⟩),
            if_neg (fun h => absurd hlt (lt_asymm h.1))]
    · rw [if_neg hpr, if_neg hpr]
  · rw [if_neg (lt_asymm hgt), batch_eq,
      applyPairs_map_spec cards _ col t now _
        (fun c => if c.id = x then q
          else if q ≤ c.position ∧ c.position < target.position then c.position + 1
          else c.position)
        hperm hn ?side]
    case side =>
      intro c
      dsimp only
      by_cases h1 : c.id = x
      · rw [if_pos h1, if_pos h1]
      · rw [if_neg h1, if_neg h1]
        by_cases h2 : q ≤ c.position ∧ c.position < target.position
        · rw [if_pos h2, if_pos h2]
        · rw [if_neg h2, if_neg h2]
    simp only [Prod.mk.injEq, and_true]
    refine List.map_congr_left fun c _ => ?_
    by_cases hpr : c.column_id = col ∧ c.tenant_id = t ∧ c.deleted_at = none
    · rw [if_pos hpr, if_pos hpr]
      by_cases hcx : c.id = x
      · rw [if_pos hcx, if_pos hcx]
      · rw [if_neg hcx, if_neg hcx]
        by_cases hsh : q ≤ c.position ∧ c.position < target.position
        · rw [if_pos hsh, if_neg (fun h => absurd hgt (lt_asymm h.1)),
            if_pos ⟨hgt, hsh.1, hsh.2⟩]
        · rw [if_neg hsh, if_neg (fun h => absurd hgt (lt_asymm h.1)),
            if_neg (fun h => hsh ⟨h.2.1, h.2.2⟩)]
    · rw [if_neg hpr, if_neg hpr]

/-- The method `reorder_card` is a pure no-op returning success when the clamped
target equals the card's current position. -/
theorem reorder_card_noop (cards : List Card) (x col t : Nat) (req : Int)
    (now : Nat) (target : Card)
    (hn : (cards.map (fun c => c.id)).Nodup)
    (hmem : target ∈ cards) (hid : target.id = x)
    (hcol : target.column_id = col) (ht : target.tenant_id = t)
    (hlive : target.deleted_at = none)
    (hsize : (siblingCards cards col t).length ≤ 1000)
    (hq : target.position
      = max 0 (min req (((siblingCards cards col t).length : Int) - 1))) :
    CardRepository.reorder_card cards x col req t now = (cards, true) := by
  have hperm := list_by_column_perm cards col t 1000 hsize
  have htcs : target ∈ CardRepository.list_by_column cards col t 1000 0 false :=
    hperm.mem_iff.mpr (mem_siblingCards.mpr ⟨hmem, hcol, ht, hlive⟩)
  have hne : (CardRepository.list_by_column cards col t 1000 0 false).isEmpty = false :=
    List.isEmpty_eq_false.mpr (List.ne_nil_of_mem htcs)
  have hfind := list_by_column_find hn hmem hid hcol ht hlive hsize
  have hlen : (CardRepository.list_by_column cards col t 1000 0 false).length
      = (siblingCards cards col t).length := hperm.length_eq
  unfold CardRepository.reorder_card
  dsimp only
  rw [hne]
  simp only [Bool.false_eq_true, if_false, hfind]
  rw [hlen, if_pos hq]

/-! ### The same machinery for columns (`column.py`) -/

/-- Per-row effect of one column `batch_update_positions` iteration. -/
def posWriteCol (tenant_id now : Nat) (p : Nat × Int) (c : Column) : Column :=
  if c.id = p.1 ∧ c.tenant_id = tenant_id then
    { c with position := p.2, updated_at := now }
  else c

theorem updateCol_fst_eq (columns : List Column) (i t : Nat) (d : ColumnUpdate)
    (v : Option Nat) (now : Nat) :
    (ColumnRepository.update columns i t d v now).1
      = columns.map (fun c =>
          if c.matchesUpdate i t v then
            let c1 := c.applyData d
            let c2 := match v with
              | none => c1
              | some ver => { c1 with version := ver + 1 }
            { c2 with updated_at := now }
          else c) := by
  by_cases h : (columns.filter (fun c => c.matchesUpdate i t v)).length = 0 <;>
    simp only [ColumnRepository.update, h, if_true, if_false, ite_true, ite_false]

theorem updateCol_position_eq_map (columns : List Column) (i t : Nat) (pos : Int)
    (now : Nat) :
    (ColumnRepository.update columns i t { position := some pos } none now).1
      = columns.map (posWriteCol t now (i, pos)) := by
  rw [updateCol_fst_eq]
  refine List.map_congr_left fun c _ => ?_
  simp only [Column.matchesUpdate, Column.applyData, posWriteCol]
  by_cases h1 : c.id = i <;> by_cases h2 : c.tenant_id = t <;>
    simp [h1, h2]

/-- Cumulative per-row effect of a whole column `batch_update_positions`
pass. -/
def applyPairsCol (tenant_id now : Nat) (ps : List (Nat × Int)) (c : Column) : Column :=
  ps.foldl (fun acc p => posWriteCol tenant_id now p acc) c

theorem applyPairsCol_cons (t now : Nat) (p : Nat × Int) (ps : List (Nat × Int))
    (c : Column) :
    applyPairsCol t now (p :: ps) c = applyPairsCol t now ps (posWriteCol t now p c) :=
  rfl

theorem foldl_updateCol_eq_map (columns : List Column) (t : Nat)
    (ps : List (Nat × Int)) (now : Nat) :
    ps.foldl
      (fun acc p =>
        (ColumnRepository.update acc p.1 t { position := some p.2 } none now).1)
      columns
      = columns.map (applyPairsCol t now ps) := by
  induction ps generalizing columns with
  | nil => exact (List.map_id columns).symm
  | cons p ps ih =>
    rw [List.foldl_cons, updateCol_position_eq_map, ih, List.map_map]
    exact List.map_congr_left fun c _ => rfl

theorem batchCol_eq (columns : List Column) (b t : Nat) (ps : List (Nat × Int))
    (now : Nat) :
    ColumnRepository.batch_update_positions columns b t ps now
      = (columns.map (applyPairsCol t now ps), true) := by
  unfold ColumnRepository.batch_update_positions
  rw [foldl_updateCol_eq_map]

theorem applyPairsCol_of_not_mem {t now : Nat} {ps : List (Nat × Int)} {c : Column}
    (h : c.id ∉ ps.map Prod.fst) : applyPairsCol t now ps c = c := by
  induction ps with
  | nil => rfl
  | cons p ps ih =>
    have h1 : c.id ≠ p.1 := fun he => h (by simp [he])
    have hw : posWriteCol t now p c = c := by
      unfold posWriteCol
      exact if_neg (fun hc => h1 hc.1)
    rw [applyPairsCol_cons, hw]
    exact ih (fun hm => h (by simp at hm ⊢; exact Or.inr hm))

theorem applyPairsCol_of_mem {t now : Nat} {ps : List (Nat × Int)} {c : Column}
    {v : Int} (hn : (ps.map Prod.fst).Nodup) (hmem : (c.id, v) ∈ ps)
    (ht : c.tenant_id = t) :
    applyPairsCol t now ps c = { c with position := v, updated_at := now } := by
  induction ps with
  | nil => cases hmem
  | cons p ps ih =>
    rw [List.map_cons] at hn
    have hn' := List.nodup_cons.mp hn
    rcases List.mem_cons.mp hmem with he | hm
    · rw [applyPairsCol_cons]
      have hw : posWriteCol t now p c = { c with position := v, updated_at := now } := by
        unfold posWriteCol
        rw [if_pos (by rw [← he]; exact ⟨rfl, ht⟩), ← he]
      rw [hw]
      refine applyPairsCol_of_not_mem ?_
      show ({ c with position := v, updated_at := now } : Column).id ∉ ps.map Prod.fst
      have hpc : p.1 = c.id := by rw [← he]
      exact hpc ▸ hn'.1
    · have hkey : c.id ∈ ps.map Prod.fst := List.mem_map.mpr ⟨(c.id, v), hm, rfl⟩
      have hne : c.id ≠ p.1 := fun he => hn'.1 (he ▸ hkey)
      have hw : posWriteCol t now p c = c := by
        unfold posWriteCol
        exact if_neg (fun hc => hne hc.1)
      rw [applyPairsCol_cons, hw]
      exact ih hn'.2 hm

/-- The live columns of a board: the spec's "sibling set" for columns. -/
def siblingColumns (columns : List Column) (board_id tenant_id : Nat) : List Column :=
  columns.filter (fun c =>
    c.board_id == board_id && c.tenant_id == tenant_id && c.deleted_at == none)

theorem mem_siblingColumns {columns : List Column} {b t : Nat} {c : Column} :
    c ∈ siblingColumns columns b t
      ↔ c ∈ columns ∧ c.board_id = b ∧ c.tenant_id = t ∧ c.deleted_at = none := by
  simp [siblingColumns, List.mem_filter, and_assoc]

theorem list_by_board_eq_sort (columns : List Column) (b t limit : Nat) :
    ColumnRepository.list_by_board columns b t limit 0 false
      = ((siblingColumns columns b t).insertionSort (columnDescRel .position)).take limit := by
  unfold ColumnRepository.list_by_board ColumnRepository.list siblingColumns
  have hb : ∀ (x y z : Bool), (y && (false || z) && x) = (x && y && z) := by
    decide
  rw [List.filter_congr (fun c _ => hb (c.board_id == b) (c.tenant_id == t)
    (c.deleted_at == none))]
  rfl

theorem list_by_board_perm (columns : List Column) (b t limit : Nat)
    (h : (siblingColumns columns b t).length ≤ limit) :
    (ColumnRepository.list_by_board columns b t limit 0 false).Perm
      (siblingColumns columns b t) := by
  rw [list_by_board_eq_sort, List.take_of_length_le]
  · exact List.perm_insertionSort _ _
  · rw [(List.perm_insertionSort (columnDescRel .position)
      (siblingColumns columns b t)).length_eq]
    exact h

theorem siblingColumns_ids_nodup (columns : List Column) (b t : Nat)
    (hn : (columns.map (fun c => c.id)).Nodup) :
    ((siblingColumns columns b t).map (fun c => c.id)).Nodup :=
  ((List.filter_sublist columns).map (fun c => c.id)).nodup hn

theorem list_by_board_find {columns : List Column} {b t x : Nat} {target : Column}
    (hn : (columns.map (fun c => c.id)).Nodup)
    (hmem : target ∈ columns) (hid : target.id = x)
    (hb : target.board_id = b) (ht : target.tenant_id = t)
    (hlive : target.deleted_at = none)
    (hsize : (siblingColumns columns b t).length ≤ 1000) :
    (ColumnRepository.list_by_board columns b t 1000 0 false).find?
      (fun c => c.id == x) = some target := by
  have hperm := list_by_board_perm columns b t 1000 hsize
  have htsib : target ∈ siblingColumns columns b t :=
    mem_siblingColumns.mpr ⟨hmem, hb, ht, hlive⟩
  refine find?_eq_some_of_unique (hperm.mem_iff.mpr htsib) (by simp [hid]) ?_
  intro d hd hpd
  have hdcols : d ∈ columns :=
    (mem_siblingColumns.mp (hperm.mem_iff.mp hd)).1
  simp only [beq_iff_eq] at hpd
  exact row_unique hn hdcols hmem (by rw [hpd, hid])

/-- Column analogue of `applyPairs_map_spec`. -/
theorem applyPairsCol_map_spec (columns cs : List Column) (b t now : Nat)
    (f : Column → Nat × Int) (val : Column → Int)
    (hperm : cs.Perm (siblingColumns columns b t))
    (hn : (columns.map (fun c => c.id)).Nodup)
    (hf : ∀ c, f c = (c.id, val c)) :
    columns.map (applyPairsCol t now (cs.map f))
      = columns.map (fun c =>
          if c.board_id = b ∧ c.tenant_id = t ∧ c.deleted_at = none then
            { c with position := val c, updated_at := now }
          else c) := by
  have hkeys : (cs.map f).map Prod.fst = cs.map (fun d => d.id) := by
    rw [List.map_map]
    exact List.map_congr_left fun d _ => by
      show (f d).1 = d.id
      rw [hf]
  have hkn : ((cs.map f).map Prod.fst).Nodup := by
    rw [hkeys]
    exact (hperm.map _).nodup_iff.mpr (siblingColumns_ids_nodup columns b t hn)
  refine List.map_congr_left fun c hc => ?_
  by_cases hp : c.board_id = b ∧ c.tenant_id = t ∧ c.deleted_at = none
  · have hcs : c ∈ cs := hperm.mem_iff.mpr (mem_siblingColumns.mpr ⟨hc, hp⟩)
    have hpair : (c.id, val c) ∈ cs.map f := by
      rw [← hf c]
      exact List.mem_map_of_mem f hcs
    rw [if_pos hp]
    exact applyPairsCol_of_mem hkn hpair hp.2.1
  · have hnk : c.id ∉ (cs.map f).map Prod.fst := by
      rw [hkeys]
      intro hmm
      obtain ⟨d, hd, hdid⟩ := List.mem_map.mp hmm
      obtain ⟨hdcols, hdpred⟩ := mem_siblingColumns.mp (hperm.mem_iff.mp hd)
      have hdc : d = c := row_unique hn hdcols hc hdid
      exact hp (hdc ▸ hdpred)
    rw [if_neg hp]
    exact applyPairsCol_of_not_mem hnk

/-- The insert-and-shift specification of `reorder_column`, identical in
shape to `reorder_card_spec`. -/
theorem reorder_column_spec (columns : List Column) (x b t : Nat) (req : Int)
    (now : Nat) (target : Column) (p q : Int)
    (hn : (columns.map (fun c => c.id)).Nodup)
    (hmem : target ∈ columns) (hid : target.id = x)
    (hb : target.board_id = b) (ht : target.tenant_id = t)
    (hlive : target.deleted_at = none)
    (hsize : (siblingColumns columns b t).length ≤ 1000)
    (hp : p = target.position)
    (hq : q = max 0 (min req (((siblingColumns columns b t).length : Int) - 1)))
    (hpq : p ≠ q) :
    ColumnRepository.reorder_column columns x b req t now
      = (columns.map (fun c =>
          if c.board_id = b ∧ c.tenant_id = t ∧ c.deleted_at = none then
            if c.id = x then { c with position := q, updated_at := now }
            else if p < q ∧ p < c.position ∧ c.position ≤ q then
              { c with position := c.position - 1, updated_at := now }
            else if q < p ∧ q ≤ c.position ∧ c.position < p then
              { c with position := c.position + 1, updated_at := now }
            else { c with updated_at := now }
          else c), true) := by
  subst hp hq
  have hperm := list_by_board_perm columns b t 1000 hsize
  have htsib : target ∈ siblingColumns columns b t :=
    mem_siblingColumns.mpr ⟨hmem, hb, ht, hlive⟩
  have htcs : target ∈ ColumnRepository.list_by_board columns b t 1000 0 false :=
    hperm.mem_iff.mpr htsib
  have hne : (ColumnRepository.list_by_board columns b t 1000 0 false).isEmpty = false :=
    List.isEmpty_eq_false.mpr (List.ne_nil_of_mem htcs)
  have hfind := list_by_board_find hn hmem hid hb ht hlive hsize
  have hlen : (ColumnRepository.list_by_board columns b t 1000 0 false).length
      = (siblingColumns columns b t).length := hperm.length_eq
  set q := max 0 (min req (((siblingColumns columns b t).length : Int) - 1)) with hqdef
  unfold ColumnRepository.reorder_column
  dsimp only
  rw [hne]
  simp only [Bool.false_eq_true, if_false, hfind]
  rw [hlen]
  rw [if_neg hpq]
  rcases lt_or_gt_of_ne hpq with hlt | hgt
  · rw [if_pos hlt, batchCol_eq,
      applyPairsCol_map_spec columns _ b t now _
        (fun c => if c.id = x then q
          else if target.position < c.position ∧ c.position ≤ q then c.position - 1
          else c.position)
        hperm hn ?side]
    case side =>
      intro c
      dsimp only
      by_cases h1 : c.id = x
      · rw [if_pos h1, if_pos h1]
      · rw [if_neg h1, if_neg h1]
        by_cases h2 : target.position < c.position ∧ c.position ≤ q
        · rw [if_pos h2, if_pos h2]
        · rw [if_neg h2, if_neg h2]
    simp only [Prod.mk.injEq, and_true]
    refine List.map_congr_left fun c _ => ?_
    by_cases hpr : c.board_id = b ∧ c.tenant_id = t ∧ c.deleted_at = none
    · rw [if_pos hpr, if_pos hpr]
      by_cases hcx : c.id = x
      · rw [if_pos hcx, if_pos hcx]
      · rw [if_neg hcx, if_neg hcx]
        by_cases hsh : target.position < c.position ∧ c.position ≤ q
        · rw [if_pos hsh, if_pos ⟨hlt, hsh.1, hsh.2⟩]
        · rw [if_neg hsh, if_neg (fun h => hsh ⟨h.2.1, h.2.2⟩),
            if_neg (fun h => absurd hlt (lt_asymm h.1))]
    · rw [if_neg hpr, if_neg hpr]
  · rw [if_neg (lt_asymm hgt), batchCol_eq,
      applyPairsCol_map_spec columns _ b t now _
        (fun c => if c.id = x then q
          else if q ≤ c.position ∧ c.position < target.position then c.position + 1
          else c.position)
        hperm hn ?side]
    case side =>
      intro c
      dsimp only
      by_cases h1 : c.id = x
      · rw [if_pos h1, if_pos h1]
      · rw [if_neg h1, if_neg h1]
        by_cases h2 : q ≤ c.position ∧ c.position < target.position
        · rw [if_pos h2, if_pos h2]
        · rw [if_neg h2, if_neg h2]
    simp only [Prod.mk.injEq, and_true]
    refine List.map_congr_left fun c _ => ?_
    by_cases hpr : c.board_id = b ∧ c.tenant_id = t ∧ c.deleted_at = none
    · rw [if_pos hpr, if_pos hpr]
      by_cases hcx : c.id = x
      · rw [if_pos hcx, if_pos hcx]
      · rw [if_neg hcx, if_neg hcx]
        by_cases hsh : q ≤ c.position ∧ c.position < target.position
        · rw [if_pos hsh, if_neg (fun h => absurd hgt (lt_asymm h.1)),
            if_pos ⟨hgt, hsh.1, hsh.2⟩]
        · rw [if_neg hsh, if_neg (fun h => absurd hgt (lt_asymm h.1)),
            if_neg (fun h => hsh ⟨h.2.1, h.2.2⟩)]
    · rw [if_neg hpr, if_neg hpr]

/-- The method `reorder_column` is a pure no-op returning success when the clamped
target equals the column's current position. -/
theorem reorder_column_noop (columns : List Column) (x b t : Nat) (req : Int)
    (now : Nat) (target : Column)
    (hn : (columns.map (fun c => c.id)).Nodup)
    (hmem : target ∈ columns) (hid : target.id = x)
    (hb : target.board_id = b) (ht : target.tenant_id = t)
    (hlive : target.deleted_at = none)
    (hsize : (siblingColumns columns b t).length ≤ 1000)
    (hq : target.position
      = max 0 (min req (((siblingColumns columns b t).length : Int) - 1))) :
    ColumnRepository.reorder_column columns x b req t now = (columns, true) := by
  have hperm := list_by_board_perm columns b t 1000 hsize
  have htcs : target ∈ ColumnRepository.list_by_board columns b t 1000 0 false :=
    hperm.mem_iff.mpr (mem_siblingColumns.mpr ⟨hmem, hb, ht, hlive⟩)
  have hne : (ColumnRepository.list_by_board columns b t 1000 0 false).isEmpty = false :=
    List.isEmpty_eq_false.mpr (List.ne_nil_of_mem htcs)
  have hfind := list_by_board_find hn hmem hid hb ht hlive hsize
  have hlen : (ColumnRepository.list_by_board columns b t 1000 0 false).length
      = (siblingColumns columns b t).length := hperm.length_eq
  unfold ColumnRepository.reorder_column
  dsimp only
  rw [hne]
  simp only [Bool.false_eq_true, if_false, hfind]
  rw [hlen, if_pos hq]

/-! ### Listing order: descending only -/

instance (f : CardOrderField) : IsTotal Card (cardDescRel f) :=
  ⟨fun a b => le_total (Card.orderKey f b) (Card.orderKey f a)⟩

instance (f : CardOrderField) : IsTrans Card (cardDescRel f) :=
  ⟨fun _ _ _ h1 h2 => le_trans h2 h1⟩

instance (f : ColumnOrderField) : IsTotal Column (columnDescRel f) :=
  ⟨fun a b => le_total (Column.orderKey f b) (Column.orderKey f a)⟩

instance (f : ColumnOrderField) : IsTrans Column (columnDescRel f) :=
  ⟨fun _ _ _ h1 h2 => le_trans h2 h1⟩

/-- Every card listing with an explicit `order_by` is pairwise descending
in the requested field. -/
theorem list_sorted_desc (cards : List Card) (t limit offset : Nat)
    (include_deleted : Bool) (f : CardOrderField) (filters : CardFilters) :
    (CardRepository.list cards t limit offset include_deleted (some f) filters).Pairwise
      (cardDescRel f) := by
  unfold CardRepository.list
  dsimp only
  exact List.Pairwise.sublist
    ((List.take_sublist _ _).trans (List.drop_sublist _ _))
    (List.sorted_insertionSort (cardDescRel f) _)

/-- Every column listing with an explicit `order_by` is pairwise
descending in the requested field. -/
theorem listCol_sorted_desc (columns : List Column) (t limit offset : Nat)
    (include_deleted : Bool) (f : ColumnOrderField) (board_id_filter : Option Nat) :
    (ColumnRepository.list columns t limit offset include_deleted (some f)
      board_id_filter).Pairwise (columnDescRel f) := by
  unfold ColumnRepository.list
  dsimp only
  exact List.Pairwise.sublist
    ((List.take_sublist _ _).trans (List.drop_sublist _ _))
    (List.sorted_insertionSort (columnDescRel f) _)

/-- The dense position sequence `0, 1, …, n-1` as integers. -/
def densePositions (n : Nat) : List Int :=
  (List.range n).map (fun k : Nat => (k : Int))

/-- When a column's live cards carry exactly the dense positions
`{0,…,n-1}` and fit under the page limit, `list_by_column` returns the
positions `n-1, n-2, …, 0`: highest first, lowest last. -/
theorem list_by_column_positions_desc (cards : List Card) (col t limit : Nat)
    (hdense : ((siblingCards cards col t).map (fun c => c.position)).Perm
      (densePositions (siblingCards cards col t).length))
    (hsize : (siblingCards cards col t).length ≤ limit) :
    (CardRepository.list_by_column cards col t limit 0 false).map (fun c => c.position)
      = (densePositions (siblingCards cards col t).length).reverse := by
  have hperm := list_by_column_perm cards col t limit hsize
  have hsorted : (CardRepository.list_by_column cards col t limit 0 false).Pairwise
      (cardDescRel .position) := list_sorted_desc cards t limit 0 false _ _
  have hmapsorted :
      ((CardRepository.list_by_column cards col t limit 0 false).map
        (fun c => c.position)).Pairwise (fun x y : Int => y ≤ x) :=
    hsorted.map _ (fun _ _ h => h)
  have hrevsorted :
      ((densePositions (siblingCards cards col t).length).reverse).Pairwise
        (fun x y : Int => y ≤ x) := by
    rw [List.pairwise_reverse]
    exact List.Pairwise.map (fun k : Nat => (k : Int))
      (fun a b h => by
        show ((a : Int) ≤ (b : Int))
        exact_mod_cast Nat.le_of_lt h)
      (List.pairwise_lt_range _)
  have hpermmap :
      ((CardRepository.list_by_column cards col t limit 0 false).map
        (fun c => c.position)).Perm
        ((densePositions (siblingCards cards col t).length).reverse) :=
    ((hperm.map _).trans hdense).trans (List.reverse_perm _).symm
  haveI : IsAntisymm Int (fun x y : Int => y ≤ x) :=
    ⟨fun a b h1 h2 => le_antisymm h2 h1⟩
  exact List.eq_of_perm_of_sorted hpermmap hmapsorted hrevsorted

/-- Column analogue of `list_by_column_positions_desc`. -/
theorem list_by_board_positions_desc (columns : List Column) (b t limit : Nat)
    (hdense : ((siblingColumns columns b t).map (fun c => c.position)).Perm
      (densePositions (siblingColumns columns b t).length))
    (hsize : (siblingColumns columns b t).length ≤ limit) :
    (ColumnRepository.list_by_board columns b t limit 0 false).map (fun c => c.position)
      = (densePositions (siblingColumns columns b t).length).reverse := by
  have hperm := list_by_board_perm columns b t limit hsize
  have hsorted : (ColumnRepository.list_by_board columns b t limit 0 false).Pairwise
      (columnDescRel .position) := listCol_sorted_desc columns t limit 0 false _ _
  have hmapsorted :
      ((ColumnRepository.list_by_board columns b t limit 0 false).map
        (fun c => c.position)).Pairwise (fun x y : Int => y ≤ x) :=
    hsorted.map _ (fun _ _ h => h)
  have hrevsorted :
      ((densePositions (siblingColumns columns b t).length).reverse).Pairwise
        (fun x y : Int => y ≤ x) := by
    rw [List.pairwise_reverse]
    exact List.Pairwise.map (fun k : Nat => (k : Int))
      (fun a b h => by
        show ((a : Int) ≤ (b : Int))
        exact_mod_cast Nat.le_of_lt h)
      (List.pairwise_lt_range _)
  have hpermmap :
      ((ColumnRepository.list_by_board columns b t limit 0 false).map
        (fun c => c.position)).Perm
        ((densePositions (siblingColumns columns b t).length).reverse) :=
    ((hperm.map _).trans hdense).trans (List.reverse_perm _).symm
  haveI : IsAntisymm Int (fun x y : Int => y ≤ x) :=
    ⟨fun a b h1 h2 => le_antisymm h2 h1⟩
  exact List.eq_of_perm_of_sorted hpermmap hmapsorted hrevsorted

/-! ### Fault model: a storage error inside the batch loop -/

/-- Embedding of `reorder_card` when the storage layer raises inside the `k`-th
(0-based) UPDATE of its `batch_update_positions` call (card.py 292-297):
everything up to the position-map computation is unchanged, but only the
first `k` single-row commits have taken effect when the exception
propagates, and the method returns `False` after its rollback. -/
def CardRepository.reorder_card_failing_at (cards : List Card) (card_id column_id : Nat)
    (new_position : Int) (tenant_id : Nat) (now : Nat) (k : Nat) : List Card × Bool :=
  let cs := CardRepository.list_by_column cards column_id tenant_id 1000 0 false
  if cs.isEmpty then (cards, false) else
  match cs.find? (fun c => c.id == card_id) with
  | none => (cards, false)
  | some target_card =>
    let old_position := target_card.position
    let max_position : Int := (cs.length : Int) - 1
    let new_position := max 0 (min new_position max_position)
    if old_position = new_position then (cards, true)
    else
      let new_positions :=
        if old_position < new_position then
          cs.map (fun c =>
            if c.id = card_id then (c.id, new_position)
            else if old_position < c.position ∧ c.position ≤ new_position then
              (c.id, c.position - 1)
            else (c.id, c.position))
        else
          cs.map (fun c =>
            if c.id = card_id then (c.id, new_position)
            else if new_position ≤ c.position ∧ c.position < old_position then
              (c.id, c.position + 1)
            else (c.id, c.position))
      CardRepository.batch_update_positions_failing_at cards column_id tenant_id
        new_positions now k

/-! ### Helper lemmas for conditional update and delete -/

theorem update_no_match (cards : List Card) (i t : Nat) (d : CardUpdate)
    (v : Option Nat) (now : Nat)
    (h : ∀ c ∈ cards, c.matchesUpdate i t v = false) :
    CardRepository.update cards i t d v now = (cards, none) := by
  have hf : cards.filter (fun c => c.matchesUpdate i t v) = [] :=
    List.filter_eq_nil_iff.mpr (fun c hc => by simp [h c hc])
  have h1 : (CardRepository.update cards i t d v now).1 = cards := by
    rw [update_fst_eq]
    refine (List.map_congr_left fun c hc => ?_).trans (List.map_id cards)
    rw [if_neg (by simp [h c hc])]
    rfl
  have h2 : (CardRepository.update cards i t d v now).2 = none := by
    unfold CardRepository.update
    dsimp only
    rw [if_pos (by rw [hf]; rfl)]
  exact Prod.ext_iff.mpr ⟨h1, h2⟩

theorem baseDelete_eq (cards : List Card) (i t : Nat) (v : Option Nat)
    (hard : Bool) (now : Nat) :
    BaseRepository.delete cards i t v hard now
      = (if hard then cards.filter (fun c => !(c.matchesUpdate i t v))
         else cards.map (fun c =>
           if c.matchesUpdate i t v then
             let c1 := match v with
               | none => c
               | some w => { c with version := w + 1 }
             { c1 with deleted_at := some now, updated_at := now }
           else c),
         decide (0 < (cards.filter (fun c => c.matchesUpdate i t v)).length)) := by
  unfold BaseRepository.delete
  cases hard <;> rfl

theorem baseDelete_no_match (cards : List Card) (i t : Nat) (v : Option Nat)
    (hard : Bool) (now : Nat)
    (h : ∀ c ∈ cards, c.matchesUpdate i t v = false) :
    BaseRepository.delete cards i t v hard now = (cards, false) := by
  have hf : cards.filter (fun c => c.matchesUpdate i t v) = [] :=
    List.filter_eq_nil_iff.mpr (fun c hc => by simp [h c hc])
  rw [baseDelete_eq, hf]
  refine Prod.ext_iff.mpr ⟨?_, by rfl⟩
  cases hard
  · dsimp only [if_false, ite_false]
    refine (List.map_congr_left fun c hc => ?_).trans (List.map_id cards)
    rw [if_neg (by simp [h c hc])]
    rfl
  · dsimp only [if_true, ite_true]
    refine (List.filter_congr fun c hc => ?_).trans (List.filter_true cards)
    simp [h c hc]

/-- A stale expected version makes every row fail the UPDATE's WHERE
clause (under the primary-key invariant). -/
theorem stale_no_match {cards : List Card} {row : Card} {i t v : Nat}
    (hn : (cards.map (fun c => c.id)).Nodup)
    (hmem : row ∈ cards) (hid : row.id = i) (htn : row.tenant_id = t)
    (hv : row.version ≠ v) :
    ∀ c ∈ cards, c.matchesUpdate i t (some v) = false := by
  intro c hc
  by_cases hci : c.id = i
  · have hcrow : c = row := row_unique hn hc hmem (by rw [hci, hid])
    subst hcrow
    simp [Card.matchesUpdate, hv]
  · simp [Card.matchesUpdate, hci]

/-- A not-matching row never satisfies the WHERE clause; under the
primary-key invariant only `row` itself can match on id. -/
theorem matchesUpdate_of_ne {cards : List Card} {row c : Card} {i t : Nat}
    {v : Option Nat}
    (hn : (cards.map (fun x => x.id)).Nodup)
    (hmem : row ∈ cards) (hid : row.id = i)
    (hc : c ∈ cards) (hne : c ≠ row) :
    c.matchesUpdate i t v = false := by
  by_cases hci : c.id = i
  · exact absurd (row_unique hn hc hmem (by rw [hci, hid])) hne
  · simp [Card.matchesUpdate, hci]

theorem update_matched (cards : List Card) (row : Card) (i t v : Nat)
    (d : CardUpdate) (now : Nat)
    (hn : (cards.map (fun c => c.id)).Nodup)
    (hmem : row ∈ cards) (hid : row.id = i) (htn : row.tenant_id = t)
    (hv : row.version = v) :
    (CardRepository.update cards i t d (some v) now).1
      = cards.map (fun c =>
          if c = row then
            { row.applyData d with version := v + 1, updated_at := now }
          else c) := by
  rw [update_fst_eq]
  refine List.map_congr_left fun c hc => ?_
  by_cases hcrow : c = row
  · subst hcrow
    rw [if_pos (by simp [Card.matchesUpdate, hid, htn, hv]), if_pos rfl]
  · rw [if_neg (by simp [matchesUpdate_of_ne hn hmem hid hc hcrow]),
      if_neg hcrow]

theorem update_unversioned (cards : List Card) (row : Card) (i t : Nat)
    (d : CardUpdate) (now : Nat)
    (hn : (cards.map (fun c => c.id)).Nodup)
    (hmem : row ∈ cards) (hid : row.id = i) (htn : row.tenant_id = t) :
    (CardRepository.update cards i t d none now).1
      = cards.map (fun c =>
          if c = row then { row.applyData d with updated_at := now }
          else c) := by
  rw [update_fst_eq]
  refine List.map_congr_left fun c hc => ?_
  by_cases hcrow : c = row
  · subst hcrow
    rw [if_pos (by simp [Card.matchesUpdate, hid, htn]), if_pos rfl]
  · rw [if_neg (by simp [matchesUpdate_of_ne hn hmem hid hc hcrow]),
      if_neg hcrow]

theorem baseDelete_soft_matched (cards : List Card) (row : Card) (i t v : Nat)
    (now : Nat)
    (hn : (cards.map (fun c => c.id)).Nodup)
    (hmem : row ∈ cards) (hid : row.id = i) (htn : row.tenant_id = t)
    (hv : row.version = v) :
    BaseRepository.delete cards i t (some v) false now
      = (cards.map (fun c =>
          if c = row then
            { row with version := v + 1, deleted_at := some now, updated_at := now }
          else c), true) := by
  rw [baseDelete_eq]
  refine Prod.ext_iff.mpr ⟨?_, ?_⟩
  · dsimp only [if_false, ite_false]
    refine List.map_congr_left fun c hc => ?_
    by_cases hcrow : c = row
    · subst hcrow
      rw [if_pos (by simp [Card.matchesUpdate, hid, htn, hv]), if_pos rfl]
    · rw [if_neg (by simp [matchesUpdate_of_ne hn hmem hid hc hcrow]),
        if_neg hcrow]
  · have hrowf : row ∈ cards.filter (fun c => c.matchesUpdate i t (some v)) :=
      List.mem_filter.mpr ⟨hmem, by simp [Card.matchesUpdate, hid, htn, hv]⟩
    exact decide_eq_true
      (List.length_pos.mpr (List.ne_nil_of_mem hrowf))

theorem baseDelete_soft_unversioned (cards : List Card) (row : Card) (i t : Nat)
    (now : Nat)
    (hn : (cards.map (fun c => c.id)).Nodup)
    (hmem : row ∈ cards) (hid : row.id = i) (htn : row.tenant_id = t) :
    BaseRepository.delete cards i t none false now
      = (cards.map (fun c =>
          if c = row then { row with deleted_at := some now, updated_at := now }
          else c), true) := by
  rw [baseDelete_eq]
  refine Prod.ext_iff.mpr ⟨?_, ?_⟩
  · dsimp only [if_false, ite_false]
    refine List.map_congr_left fun c hc => ?_
    by_cases hcrow : c = row
    · subst hcrow
      rw [if_pos (by simp [Card.matchesUpdate, hid, htn]), if_pos rfl]
    · rw [if_neg (by simp [matchesUpdate_of_ne hn hmem hid hc hcrow]),
        if_neg hcrow]
  · have hrowf : row ∈ cards.filter (fun c => c.matchesUpdate i t none) :=
      List.mem_filter.mpr ⟨hmem, by simp [Card.matchesUpdate, hid, htn]⟩
    exact decide_eq_true
      (List.length_pos.mpr (List.ne_nil_of_mem hrowf))

theorem getColumn_eq_some {columns : List Column} {i t : Nat} {row : Column}
    (hn : (columns.map (fun c => c.id)).Nodup)
    (hmem : row ∈ columns) (hid : row.id = i) (ht : row.tenant_id = t)
    (hlive : row.deleted_at = none) :
    ColumnRepository.get_by_id columns i t = some row := by
  unfold ColumnRepository.get_by_id
  refine find?_eq_some_of_unique hmem (by simp [hid, ht, hlive]) ?_
  intro b hb hpb
  simp only [Bool.and_eq_true, beq_iff_eq] at hpb
  exact row_unique hn hb hmem (by rw [hpb.1.1, hid])

theorem getBoard_eq_some {boards : List Board} {i t : Nat} {row : Board}
    (hn : (boards.map (fun b => b.id)).Nodup)
    (hmem : row ∈ boards) (hid : row.id = i) (ht : row.tenant_id = t)
    (hlive : row.deleted_at = none) :
    BoardRepository.get_by_id boards i t = some row := by
  unfold BoardRepository.get_by_id
  refine find?_eq_some_of_unique hmem (by simp [hid, ht, hlive]) ?_
  intro b hb hpb
  simp only [Bool.and_eq_true, beq_iff_eq] at hpb
  exact row_unique hn hb hmem (by rw [hpb.1.1, hid])

/-- Default card listings (`include_deleted = false`) never surface a
soft-deleted row. -/
theorem list_excludes_deleted (cards : List Card) (t limit offset : Nat)
    (order_by : Option CardOrderField) (filters : CardFilters) :
    ∀ c ∈ CardRepository.list cards t limit offset false order_by filters,
      c.deleted_at = none := by
  intro c hc
  unfold CardRepository.list at hc
  dsimp only at hc
  rcases order_by with _ | f <;>
  · have h2 := List.mem_of_mem_drop (List.mem_of_mem_take hc)
    have h3 := (List.perm_insertionSort _ _).mem_iff.mp h2
    have h4 := List.mem_filter.mp h3
    simp only [Bool.and_eq_true, Bool.false_or, beq_iff_eq] at h4
    exact h4.2.1.2

/-- Default column listings never surface a soft-deleted row. -/
theorem listCol_excludes_deleted (columns : List Column) (t limit offset : Nat)
    (order_by : Option ColumnOrderField) (board_id_filter : Option Nat) :
    ∀ c ∈ ColumnRepository.list columns t limit offset false order_by
      board_id_filter, c.deleted_at = none := by
  intro c hc
  unfold ColumnRepository.list at hc
  dsimp only at hc
  rcases order_by with _ | f <;>
  · have h2 := List.mem_of_mem_drop (List.mem_of_mem_take hc)
    have h3 := (List.perm_insertionSort _ _).mem_iff.mp h2
    have h4 := List.mem_filter.mp h3
    simp only [Bool.and_eq_true, Bool.false_or, beq_iff_eq] at h4
    exact h4.2.1.2

/-! ### Concrete fixtures -/

/-- A live card in board 1 with version 1 and zeroed timestamps. -/
def sampleCard (id column_id : Nat) (position : Int) : Card :=
  { id := id, tenant_id := 0, version := 1, created_at := 0, updated_at := 0,
    deleted_at := none, board_id := 1, column_id := column_id,
    position := position, title := 0 }

/-- Column X (id 1) holding four cards at positions 0–3 and column Y
(id 2) holding two cards at positions 0–1, all tenant 0, board 1. -/
def boardCards : List Card :=
  [sampleCard 1 1 0, sampleCard 2 1 1, sampleCard 3 1 2, sampleCard 4 1 3,
   sampleCard 5 2 0, sampleCard 6 2 1]

/-- A single column (id 1) holding three cards at positions 0–2. -/
def threeCards : List Card :=
  [sampleCard 1 1 0, sampleCard 2 1 1, sampleCard 3 1 2]

/-- One live board (id 1, version 1). -/
def sampleBoard : Board :=
  { id := 1, tenant_id := 0, version := 1, created_at := 0, updated_at := 0,
    deleted_at := none, workspace_id := 0, name := 0 }

/-- One live column (id 2) of board 1. -/
def sampleColumn : Column :=
  { id := 2, tenant_id := 0, version := 1, created_at := 0, updated_at := 0,
    deleted_at := none, board_id := 1, position := 0, name := 0 }

/-- A board with one column and one card, all live at version 1. -/
def boardTablesSample : BoardTables :=
  { boards := [sampleBoard], columns := [sampleColumn],
    cards := [sampleCard 3 2 0] }

/-! ### Claim theorems -/

/-- C6 — Reorder directional shift correctness: for every reorder of an
item at position `p` within its container of `n` non-deleted siblings to
target position `q` (after clamping to `[0, n-1]`) with `p ≠ q`: if
`p < q` every sibling whose position was in `(p, q]` moves down by 1, if
`p > q` every sibling whose position was in `[q, p)` moves up by 1, the
moved item ends at `q`, and all other siblings keep their positions —
for cards within a column and columns within a board alike. -/
theorem C6_reorder_directional_shift :
    (∀ (cards : List Card) (x col t : Nat) (req : Int) (now : Nat)
        (target : Card) (p q : Int),
      (cards.map (fun c => c.id)).Nodup →
      target ∈ cards → target.id = x → target.column_id = col →
      target.tenant_id = t → target.deleted_at = none →
      (siblingCards cards col t).length ≤ 1000 →
      p = target.position →
      q = max 0 (min req (((siblingCards cards col t).length : Int) - 1)) →
      p ≠ q →
      CardRepository.reorder_card cards x col req t now
        = (cards.map (fun c =>
            if c.column_id = col ∧ c.tenant_id = t ∧ c.deleted_at = none then
              if c.id = x then { c with position := q, updated_at := now }
              else if p < q ∧ p < c.position ∧ c.position ≤ q then
                { c with position := c.position - 1, updated_at := now }
              else if q < p ∧ q ≤ c.position ∧ c.position < p then
                { c with position := c.position + 1, updated_at := now }
              else { c with updated_at := now }
            else c), true))
    ∧ (∀ (columns : List Column) (x b t : Nat) (req : Int) (now : Nat)
        (target : Column) (p q : Int),
      (columns.map (fun c => c.id)).Nodup →
      target ∈ columns → target.id = x → target.board_id = b →
      target.tenant_id = t → target.deleted_at = none →
      (siblingColumns columns b t).length ≤ 1000 →
      p = target.position →
      q = max 0 (min req (((siblingColumns columns b t).length : Int) - 1)) →
      p ≠ q →
      ColumnRepository.reorder_column columns x b req t now
        = (columns.map (fun c =>
            if c.board_id = b ∧ c.tenant_id = t ∧ c.deleted_at = none then
              if c.id = x then { c with position := q, updated_at := now }
              else if p < q ∧ p < c.position ∧ c.position ≤ q then
                { c with position := c.position - 1, updated_at := now }
              else if q < p ∧ q ≤ c.position ∧ c.position < p then
                { c with position := c.position + 1, updated_at := now }
              else { c with updated_at := now }
            else c), true)) :=
  ⟨fun cards x col t req now target p q hn hmem hid hcol ht hlive hsize hp hq hpq =>
    reorder_card_spec cards x col t req now target p q hn hmem hid hcol ht hlive
      hsize hp hq hpq,
   fun columns x b t req now target p q hn hmem hid hb ht hlive hsize hp hq hpq =>
    reorder_column_spec columns x b t req now target p q hn hmem hid hb ht hlive
      hsize hp hq hpq⟩

/-- Witness for C6 at Scenario A: the column `[A, B, C, D]` at positions
`[0, 1, 2, 3]`; reordering `D` (id 4) to position 1 yields order
`[A, D, B, C]` at positions `[0, 1, 2, 3]` (every sibling row is
rewritten by the batch, so each gets the fresh `updated_at`). -/
theorem C6_reorder_directional_shift_witness :
    CardRepository.reorder_card boardCards 4 1 1 0 9
      = ([{ sampleCard 1 1 0 with updated_at := 9 },
          { sampleCard 2 1 1 with position := 2, updated_at := 9 },
          { sampleCard 3 1 2 with position := 3, updated_at := 9 },
          { sampleCard 4 1 3 with position := 1, updated_at := 9 },
          sampleCard 5 2 0, sampleCard 6 2 1], true) := by
  have h := C6_reorder_directional_shift.1 boardCards 4 1 0 1 9 (sampleCard 4 1 3)
    3 1 (by decide) (by decide) (by decide) (by decide) (by decide) (by decide)
    (by decide) (by decide) (by decide) (by decide)
  exact h.trans (by decide)

/-- C9 — No-op reorder frame property: a reorder whose clamped target
equals the item's current position succeeds while writing no row — the
table (positions, versions, timestamps) is returned unchanged — for
cards and columns alike. -/
theorem C9_noop_reorder_frame :
    (∀ (cards : List Card) (x col t : Nat) (req : Int) (now : Nat)
        (target : Card),
      (cards.map (fun c => c.id)).Nodup →
      target ∈ cards → target.id = x → target.column_id = col →
      target.tenant_id = t → target.deleted_at = none →
      (siblingCards cards col t).length ≤ 1000 →
      target.position
        = max 0 (min req (((siblingCards cards col t).length : Int) - 1)) →
      CardRepository.reorder_card cards x col req t now = (cards, true))
    ∧ (∀ (columns : List Column) (x b t : Nat) (req : Int) (now : Nat)
        (target : Column),
      (columns.map (fun c => c.id)).Nodup →
      target ∈ columns → target.id = x → target.board_id = b →
      target.tenant_id = t → target.deleted_at = none →
      (siblingColumns columns b t).length ≤ 1000 →
      target.position
        = max 0 (min req (((siblingColumns columns b t).length : Int) - 1)) →
      ColumnRepository.reorder_column columns x b req t now = (columns, true)) :=
  ⟨fun cards x col t req now target hn hmem hid hcol ht hlive hsize hq =>
    reorder_card_noop cards x col t req now target hn hmem hid hcol ht hlive
      hsize hq,
   fun columns x b t req now target hn hmem hid hb ht hlive hsize hq =>
    reorder_column_noop columns x b t req now target hn hmem hid hb ht hlive
      hsize hq⟩

/-- Witness for C9: reordering card 4 (already last, position 3) to the
out-of-range target 5 — clamped to 3, its current position — returns
success and the untouched table. -/
theorem C9_noop_reorder_frame_witness :
    CardRepository.reorder_card boardCards 4 1 5 0 9 = (boardCards, true) :=
  C9_noop_reorder_frame.1 boardCards 4 1 0 5 9 (sampleCard 4 1 3)
    (by decide) (by decide) (by decide) (by decide) (by decide) (by decide)
    (by decide) (by decide)

/-- C10 — Descending-only ordering of listings: every `list` call naming
a model field sorts descending in that field (no ascending direction
exists), and `list_by_column` / `list_by_board`, which pass
`order_by="position"`, return a densely-positioned sibling set from
highest position to lowest (`n-1` first, `0` last). -/
theorem C10_listings_descend :
    (∀ (cards : List Card) (t limit offset : Nat) (include_deleted : Bool)
        (f : CardOrderField) (filters : CardFilters),
      (CardRepository.list cards t limit offset include_deleted (some f)
        filters).Pairwise (cardDescRel f))
    ∧ (∀ (columns : List Column) (t limit offset : Nat) (include_deleted : Bool)
        (f : ColumnOrderField) (board_id_filter : Option Nat),
      (ColumnRepository.list columns t limit offset include_deleted (some f)
        board_id_filter).Pairwise (columnDescRel f))
    ∧ (∀ (cards : List Card) (col t limit : Nat),
      ((siblingCards cards col t).map (fun c => c.position)).Perm
        (densePositions (siblingCards cards col t).length) →
      (siblingCards cards col t).length ≤ limit →
      (CardRepository.list_by_column cards col t limit 0 false).map
        (fun c => c.position)
        = (densePositions (siblingCards cards col t).length).reverse)
    ∧ (∀ (columns : List Column) (b t limit : Nat),
      ((siblingColumns columns b t).map (fun c => c.position)).Perm
        (densePositions (siblingColumns columns b t).length) →
      (siblingColumns columns b t).length ≤ limit →
      (ColumnRepository.list_by_board columns b t limit 0 false).map
        (fun c => c.position)
        = (densePositions (siblingColumns columns b t).length).reverse) :=
  ⟨list_sorted_desc,
   listCol_sorted_desc,
   fun cards col t limit hdense hsize =>
    list_by_column_positions_desc cards col t limit hdense hsize,
   fun columns b t limit hdense hsize =>
    list_by_board_positions_desc columns b t limit hdense hsize⟩

/-- Witness for C10: the four-card column at positions `{0,1,2,3}` is
listed highest-position first: `[3, 2, 1, 0]`. -/
theorem C10_listings_descend_witness :
    (CardRepository.list_by_column boardCards 1 0 100 0 false).map
      (fun c => c.position)
      = (densePositions (siblingCards boardCards 1 0).length).reverse :=
  C10_listings_descend.2.2.1 boardCards 1 0 100 (by decide) (by decide)

/-- C5 — Stale-version rejection with zero side effects: an update or
delete supplying an expected version different from the stored one
returns null/false and leaves every row (and, for the cascading card
delete, every dependent table) exactly as it was; the mutation is
applied exactly when the stored version equals the expected one. -/
theorem C5_stale_version_rejection :
    (∀ (cards : List Card) (row : Card) (i t v : Nat) (d : CardUpdate)
        (now : Nat),
      (cards.map (fun c => c.id)).Nodup → row ∈ cards → row.id = i →
      row.tenant_id = t → row.version ≠ v →
      CardRepository.update cards i t d (some v) now = (cards, none))
    ∧ (∀ (cards : List Card) (row : Card) (i t v : Nat) (hard : Bool)
        (now : Nat),
      (cards.map (fun c => c.id)).Nodup → row ∈ cards → row.id = i →
      row.tenant_id = t → row.version ≠ v →
      BaseRepository.delete cards i t (some v) hard now = (cards, false))
    ∧ (∀ (tb : CardTables) (row : Card) (i t v : Nat) (hard : Bool)
        (now : Nat),
      (tb.cards.map (fun c => c.id)).Nodup → row ∈ tb.cards → row.id = i →
      row.tenant_id = t → row.deleted_at = none → row.version ≠ v →
      CardRepository.delete tb i t (some v) hard now = (tb, false))
    ∧ (∀ (cards : List Card) (row : Card) (i t v : Nat) (d : CardUpdate)
        (now : Nat),
      (cards.map (fun c => c.id)).Nodup → row ∈ cards → row.id = i →
      row.tenant_id = t → row.version = v →
      (CardRepository.update cards i t d (some v) now).1
        = cards.map (fun c =>
            if c = row then
              { row.applyData d with version := v + 1, updated_at := now }
            else c)) := by
  refine ⟨?_, ?_, ?_, ?_⟩
  · intro cards row i t v d now hn hmem hid htn hv
    exact update_no_match cards i t d (some v) now
      (stale_no_match hn hmem hid htn hv)
  · intro cards row i t v hard now hn hmem hid htn hv
    exact baseDelete_no_match cards i t (some v) hard now
      (stale_no_match hn hmem hid htn hv)
  · intro tb row i t v hard now hn hmem hid htn hlive hv
    unfold CardRepository.delete
    rw [get_by_id_eq_some hn hmem hid htn hlive]
    dsimp only
    rw [if_pos (by simp [hv])]
  · intro cards row i t v d now hn hmem hid htn hv
    exact update_matched cards row i t v d now hn hmem hid htn hv

/-- Witness for C5: a stale update against a version-1 card returns
`none` with the table unchanged, and the same update with the matching
expected version applies exactly the requested mutation. -/
theorem C5_stale_version_rejection_witness :
    CardRepository.update threeCards 1 0 { position := some 7 } (some 5) 9
      = (threeCards, none)
    ∧ (CardRepository.update threeCards 1 0 { position := some 7 } (some 1) 9).1
      = [{ sampleCard 1 1 0 with position := 7, version := 2, updated_at := 9 },
         sampleCard 2 1 1, sampleCard 3 1 2] := by
  constructor
  · exact C5_stale_version_rejection.1 threeCards (sampleCard 1 1 0) 1 0 5
      { position := some 7 } 9 (by decide) (by decide) (by decide) (by decide)
      (by decide)
  · have h := C5_stale_version_rejection.2.2.2 threeCards (sampleCard 1 1 0) 1 0 1
      { position := some 7 } 9 (by decide) (by decide) (by decide) (by decide)
      (by decide)
    exact h.trans (by decide)

/-- Counterexample for C4 as stated: an update that supplies no expected
version succeeds (it returns the updated entity) yet leaves the stored
version unchanged at 1 instead of bumping it to 2. -/
theorem C4_counterexample :
    (CardRepository.update [sampleCard 1 1 0] 1 0 { title := some 5 } none 7).2.isSome
      = true
    ∧ ((CardRepository.update [sampleCard 1 1 0] 1 0 { title := some 5 } none 7).1.map
        (fun c => c.version)) = [1] := by
  decide

/-- C4 (amended) — Version and timestamp effects of the CRUD engine:
`create` starts rows at version 1; a successful `update` always
refreshes `updated_at` but bumps `version` by exactly 1 only when an
expected version is supplied (the `data` dict itself never carries a
version); a successful soft `delete` stamps `deleted_at` (with
`updated_at` refreshed by the model's `onupdate` default) and bumps
`version` by exactly 1 only when an expected version is supplied. -/
theorem C4_version_bump_semantics :
    (∀ (cards : List Card) (row : Card) (i t : Nat) (d : CardUpdate) (now : Nat),
      (cards.map (fun c => c.id)).Nodup → row ∈ cards → row.id = i →
      row.tenant_id = t →
      (CardRepository.update cards i t d (some row.version) now).1
        = cards.map (fun c =>
            if c = row then
              { row.applyData d with version := row.version + 1, updated_at := now }
            else c))
    ∧ (∀ (cards : List Card) (row : Card) (i t : Nat) (d : CardUpdate) (now : Nat),
      (cards.map (fun c => c.id)).Nodup → row ∈ cards → row.id = i →
      row.tenant_id = t →
      (CardRepository.update cards i t d none now).1
        = cards.map (fun c =>
            if c = row then { row.applyData d with updated_at := now }
            else c))
    ∧ (∀ (r : Card) (d : CardUpdate), (r.applyData d).version = r.version)
    ∧ (∀ (cards : List Card) (row : Card) (i t : Nat) (now : Nat),
      (cards.map (fun c => c.id)).Nodup → row ∈ cards → row.id = i →
      row.tenant_id = t →
      BaseRepository.delete cards i t (some row.version) false now
        = (cards.map (fun c =>
            if c = row then
              { row with
                version := row.version + 1
                deleted_at := some now
                updated_at := now }
            else c), true))
    ∧ (∀ (cards : List Card) (row : Card) (i t : Nat) (now : Nat),
      (cards.map (fun c => c.id)).Nodup → row ∈ cards → row.id = i →
      row.tenant_id = t →
      BaseRepository.delete cards i t none false now
        = (cards.map (fun c =>
            if c = row then { row with deleted_at := some now, updated_at := now }
            else c), true))
    ∧ (∀ (cards : List Card) (id t b col : Nat) (pos : Int) (title now : Nat),
      (CardRepository.create cards id t b col pos title now).2.version = 1) := by
  refine ⟨?_, ?_, ?_, ?_, ?_, ?_⟩
  · intro cards row i t d now hn hmem hid htn
    exact update_matched cards row i t row.version d now hn hmem hid htn rfl
  · intro cards row i t d now hn hmem hid htn
    exact update_unversioned cards row i t d now hn hmem hid htn
  · intro r d
    rfl
  · intro cards row i t now hn hmem hid htn
    exact baseDelete_soft_matched cards row i t row.version now hn hmem hid htn rfl
  · intro cards row i t now hn hmem hid htn
    exact baseDelete_soft_unversioned cards row i t now hn hmem hid htn
  · intro cards id t b col pos title now
    rfl

/-- Witness for C4 (amended): the version-carrying update bumps 1 → 2;
the version-free soft delete stamps `deleted_at` and leaves version 1. -/
theorem C4_version_bump_semantics_witness :
    (CardRepository.update threeCards 1 0 { position := some 7 } (some 1) 9).1
      = [{ sampleCard 1 1 0 with position := 7, version := 2, updated_at := 9 },
         sampleCard 2 1 1, sampleCard 3 1 2]
    ∧ BaseRepository.delete threeCards 1 0 none false 9
      = ([{ sampleCard 1 1 0 with deleted_at := some 9, updated_at := 9 },
          sampleCard 2 1 1, sampleCard 3 1 2], true) := by
  constructor
  · have h := C4_version_bump_semantics.1 threeCards (sampleCard 1 1 0) 1 0
      { position := some 7 } 9 (by decide) (by decide) (by decide) (by decide)
    exact h.trans (by decide)
  · have h := C4_version_bump_semantics.2.2.2.2.1 threeCards (sampleCard 1 1 0)
      1 0 9 (by decide) (by decide) (by decide) (by decide)
    exact h.trans (by decide)

/-- Counterexample for C7 as stated: soft-deleting a board without an
expected version succeeds and stamps `deleted_at`, but the board's own
version stays at 1 instead of being incremented to 2 (its columns and
cards are bumped). -/
theorem C7_counterexample :
    (BoardRepository.delete boardTablesSample 1 0 none false 9).2 = true
    ∧ ((BoardRepository.delete boardTablesSample 1 0 none false 9).1.boards.map
        (fun b => (b.version, b.deleted_at))) = [(1, some 9)]
    ∧ ((BoardRepository.delete boardTablesSample 1 0 none false 9).1.columns.map
        (fun c => (c.version, c.deleted_at))) = [(2, some 9)]
    ∧ ((BoardRepository.delete boardTablesSample 1 0 none false 9).1.cards.map
        (fun c => (c.version, c.deleted_at))) = [(2, some 9)] := by
  decide

/-- C7 (amended) — Cascading soft delete: soft-deleting a live board
stamps `deleted_at` and bumps version by exactly 1 on every live column
and card of the board in the same atomic write, leaves already-deleted
descendants untouched, and stamps the board itself — whose own version
is bumped by exactly 1 exactly when a matching expected version was
supplied, and is left unchanged otherwise; soft-deleted rows never
appear in default listings. -/
theorem C7_cascading_soft_delete (tb : BoardTables) (board : Board)
    (eid tid : Nat) (version : Option Nat) (now : Nat)
    (hn : (tb.boards.map (fun b => b.id)).Nodup)
    (hmem : board ∈ tb.boards) (hid : board.id = eid)
    (htn : board.tenant_id = tid) (hlive : board.deleted_at = none)
    (hv : match version with | none => True | some v => board.version = v) :
    BoardRepository.delete tb eid tid version false now
      = ({ boards := tb.boards.map (fun x =>
             if x = board then
               { board with
                 version := (match version with
                   | none => board.version
                   | some v => v + 1)
                 deleted_at := some now
                 updated_at := now }
             else x),
           columns := tb.columns.map (fun c =>
             if c.board_id = eid ∧ c.tenant_id = tid ∧ c.deleted_at = none then
               { c with
                 deleted_at := some now
                 version := c.version + 1
                 updated_at := now }
             else c),
           cards := tb.cards.map (fun c =>
             if c.board_id = eid ∧ c.tenant_id = tid ∧ c.deleted_at = none then
               { c with
                 deleted_at := some now
                 version := c.version + 1
                 updated_at := now }
             else c) }, true)
    ∧ (∀ (cards : List Card) (t limit offset : Nat)
        (order_by : Option CardOrderField) (filters : CardFilters),
      ∀ c ∈ CardRepository.list cards t limit offset false order_by filters,
        c.deleted_at = none)
    ∧ (∀ (columns : List Column) (t limit offset : Nat)
        (order_by : Option ColumnOrderField) (board_id_filter : Option Nat),
      ∀ c ∈ ColumnRepository.list columns t limit offset false order_by
        board_id_filter, c.deleted_at = none) := by
  have hvm : board.matchesUpdate eid tid version = true := by
    rcases version with _ | v
    · simp [Board.matchesUpdate, hid, htn]
    · simp [Board.matchesUpdate, hid, htn, hv]
  have hguard : version.any (fun w => board.version != w) = false := by
    rcases version with _ | v
    · rfl
    · simp [hv]
  refine ⟨?_, list_excludes_deleted, listCol_excludes_deleted⟩
  unfold BoardRepository.delete
  rw [getBoard_eq_some hn hmem hid htn hlive]
  dsimp only
  rw [hguard]
  simp only [Bool.false_eq_true, if_false]
  refine Prod.ext_iff.mpr ⟨?_, ?_⟩
  · simp only [BoardTables.mk.injEq]
    refine ⟨List.map_congr_left fun x hx => ?_, trivial, trivial⟩
    by_cases hxb : x = board
    · subst hxb
      rw [if_pos hvm, if_pos rfl]
      rcases version with _ | v <;> rfl
    · have hxm : x.matchesUpdate eid tid version = false := by
        by_cases hxi : x.id = eid
        · exact absurd (row_unique hn hx hmem (by rw [hxi, hid])) hxb
        · simp [Board.matchesUpdate, hxi]
      rw [if_neg (by simp [hxm]), if_neg hxb]
  · have hbm : board ∈ tb.boards.filter
        (fun b => b.matchesUpdate eid tid version) :=
      List.mem_filter.mpr ⟨hmem, hvm⟩
    exact decide_eq_true (List.length_pos.mpr (List.ne_nil_of_mem hbm))

/-- Witness for C7 (amended): soft-deleting the sample board with its
matching expected version 1 stamps and bumps the board, its column and
its card. -/
theorem C7_cascading_soft_delete_witness :
    BoardRepository.delete boardTablesSample 1 0 (some 1) false 9
      = ({ boards := [{ sampleBoard with
             version := 2
             deleted_at := some 9
             updated_at := 9 }],
           columns := [{ sampleColumn with
             version := 2
             deleted_at := some 9
             updated_at := 9 }],
           cards := [{ sampleCard 3 2 0 with
             version := 2
             deleted_at := some 9
             updated_at := 9 }] }, true) := by
  have h := C7_cascading_soft_delete boardTablesSample sampleBoard 1 0 (some 1) 9
    (by decide) (by decide) (by decide) (by decide) (by decide) (by decide)
  exact h.1.trans (by decide)

/-- C8 — Cascading hard delete permanence: hard-deleting a live column
(with a matching or absent expected version) succeeds, physically
removes every card whose `column_id` referenced it — soft-deleted cards
included — and removes the column row; afterwards `get_by_id` with
`include_deleted = true` returns null for every such card. -/
theorem C8_cascading_hard_delete (tb : ColumnTables) (column : Column)
    (eid tid : Nat) (version : Option Nat) (now : Nat)
    (hnc : (tb.columns.map (fun c => c.id)).Nodup)
    (hncards : (tb.cards.map (fun c => c.id)).Nodup)
    (hmem : column ∈ tb.columns) (hid : column.id = eid)
    (htn : column.tenant_id = tid) (hlive : column.deleted_at = none)
    (hv : match version with | none => True | some v => column.version = v) :
    (ColumnRepository.delete tb eid tid version true now).2 = true
    ∧ (ColumnRepository.delete tb eid tid version true now).1.cards
        = tb.cards.filter (fun c => !(c.column_id == eid && c.tenant_id == tid))
    ∧ (ColumnRepository.delete tb eid tid version true now).1.columns
        = tb.columns.filter (fun c => !(c.matchesUpdate eid tid version))
    ∧ ∀ cid : Nat,
        (∃ c ∈ tb.cards, c.id = cid ∧ c.column_id = eid ∧ c.tenant_id = tid) →
        CardRepository.get_by_id
          (ColumnRepository.delete tb eid tid version true now).1.cards cid tid true
          = none := by
  have hvm : column.matchesUpdate eid tid version = true := by
    rcases version with _ | v
    · simp [Column.matchesUpdate, hid, htn]
    · simp [Column.matchesUpdate, hid, htn, hv]
  have hguard : version.any (fun w => column.version != w) = false := by
    rcases version with _ | v
    · rfl
    · simp [hv]
  have hstate : ColumnRepository.delete tb eid tid version true now
      = ({ columns := tb.columns.filter (fun c => !(c.matchesUpdate eid tid version)),
           cards := tb.cards.filter
             (fun c => !(c.column_id == eid && c.tenant_id == tid)) },
         decide (0 < (tb.columns.filter
           (fun c => c.matchesUpdate eid tid version)).length)) := by
    unfold ColumnRepository.delete
    rw [getColumn_eq_some hnc hmem hid htn hlive]
    dsimp only
    rw [hguard]
    simp only [Bool.false_eq_true, if_false]
    rw [if_pos trivial]
  refine ⟨?_, ?_, ?_, ?_⟩
  · rw [hstate]
    have hcm : column ∈ tb.columns.filter
        (fun c => c.matchesUpdate eid tid version) :=
      List.mem_filter.mpr ⟨hmem, hvm⟩
    exact decide_eq_true (List.length_pos.mpr (List.ne_nil_of_mem hcm))
  · rw [hstate]
  · rw [hstate]
  · rintro cid ⟨c, hcmem, hcid, hccol, hct⟩
    rw [hstate]
    unfold CardRepository.get_by_id
    dsimp only
    rw [List.find?_eq_none]
    intro x hx hpx
    obtain ⟨hxcards, hxneg⟩ := List.mem_filter.mp hx
    simp only [Bool.not_eq_eq_eq_not, Bool.not_true, Bool.and_eq_false_imp,
      beq_iff_eq] at hxneg
    simp only [Bool.and_eq_true, beq_iff_eq] at hpx
    have hxc : x = c := row_unique hncards hxcards hcmem (by rw [hpx.1.1, hcid])
    subst hxc
    exact absurd hct (by simpa using hxneg hccol)


/-- A column table with one live column (id 2) holding one live card
(id 3) and one already-soft-deleted card (id 7). -/
def columnTablesSample : ColumnTables :=
  { columns := [sampleColumn],
    cards := [sampleCard 3 2 0, { sampleCard 7 2 1 with deleted_at := some 5 }] }

/-- Witness for C8: hard-deleting column 2 removes its live card and its
already-soft-deleted card; `get_by_id` with `include_deleted = true`
finds neither afterwards. -/
theorem C8_cascading_hard_delete_witness :
    (ColumnRepository.delete columnTablesSample 2 0 none true 9).2 = true
    ∧ (ColumnRepository.delete columnTablesSample 2 0 none true 9).1.cards = []
    ∧ CardRepository.get_by_id
        (ColumnRepository.delete columnTablesSample 2 0 none true 9).1.cards 7 0 true
        = none := by
  have h := C8_cascading_hard_delete columnTablesSample sampleColumn 2 0 none 9
    (by decide) (by decide) (by decide) (by decide) (by decide) (by decide)
    (by decide)
  refine ⟨h.1, h.2.1.trans (by decide), ?_⟩
  exact h.2.2.2 7 ⟨{ sampleCard 7 2 1 with deleted_at := some 5 },
    by decide, by decide, by decide, by decide⟩

/-- C1 — Dense ordering invariant: refuted on the code.  Moving card 3
out of the four-card column X (positions `{0,1,2,3}`) with `move_card`
succeeds but never densifies X: its three remaining live cards keep
positions `[0, 1, 3]`, which is not `{0, 1, 2}`. -/
theorem C1_move_card_breaks_density :
    (CardRepository.move_card boardCards 3 2 none 0 9).2 = true
    ∧ ((siblingCards (CardRepository.move_card boardCards 3 2 none 0 9).1 1 0).map
        (fun c => c.position)) = [0, 1, 3]
    ∧ ¬ (((siblingCards (CardRepository.move_card boardCards 3 2 none 0 9).1 1 0).map
        (fun c => c.position)).Perm
          (densePositions
            (siblingCards (CardRepository.move_card boardCards 3 2 none 0 9).1 1 0).length)) := by
  decide

/-- C2 — Cross-container move postcondition: refuted on the code at the
spec's own Scenario B.  Moving card 3 from column X (4 cards) to column
Y (2 cards) at target position 1 leaves X un-densified at positions
`[0, 1, 3]`, and — because `move_card` assigns positions by `enumerate`
index over a listing that `list` returns in descending position order —
Y's prior position-1 card (id 6) ends at position 0 instead of 2 while
Y's prior position-0 card (id 5) ends at position 2; only the moved card
itself lands on the requested position 1 with `column_id` updated. -/
theorem C2_move_card_scenario_b :
    CardRepository.move_card boardCards 3 2 (some 1) 0 9
      = ([sampleCard 1 1 0, sampleCard 2 1 1,
          { sampleCard 3 1 2 with position := 1, column_id := 2, updated_at := 9 },
          sampleCard 4 1 3,
          { sampleCard 5 2 0 with position := 2, updated_at := 9 },
          { sampleCard 6 2 1 with position := 0, updated_at := 9 }], true)
    ∧ ((siblingCards (CardRepository.move_card boardCards 3 2 (some 1) 0 9).1 1 0).map
        (fun c => c.position)) = [0, 1, 3]
    ∧ (((CardRepository.move_card boardCards 3 2 (some 1) 0 9).1.filter
        (fun c => c.id == 6)).map (fun c => c.position)) = [0] := by
  decide

/-- C3 — Atomicity of multi-row reposition: refuted on the code.
`batch_update_positions` commits one single-row UPDATE per iteration, so
a storage error at the third write of the reorder `3 → position 0` over
the column `[0, 1, 2]` leaves the two already-committed writes in place:
the observable, persisted positions are `[0, 2, 0]` — neither the
original `[0, 1, 2]` nor the fully-applied `[1, 2, 0]`, with position 0
duplicated and position 1 missing. -/
theorem C3_batch_update_not_atomic :
    (CardRepository.reorder_card_failing_at threeCards 3 1 0 0 9 2).2 = false
    ∧ ((CardRepository.reorder_card_failing_at threeCards 3 1 0 0 9 2).1.map
        (fun c => c.position)) = [0, 2, 0]
    ∧ (CardRepository.reorder_card_failing_at threeCards 3 1 0 0 9 2).1 ≠ threeCards
    ∧ (CardRepository.reorder_card_failing_at threeCards 3 1 0 0 9 2).1
        ≠ (CardRepository.reorder_card threeCards 3 1 0 0 9).1 := by
  decide

end Obviate
